import Mathlib

/-!
Verification of the xbase transistor-placement core against its
natural-language specification.

The Lean definitions below are shallow embeddings of the Python sources:

  * src/xbase/layout/mos/placement/data.py  (tile pattern algebra, tile table)
  * src/xbase/layout/mos/data.py            (ExtWidthInfo, RowPlaceInfo)
  * src/xbase/layout/mos/util.py            (MOSUsedArray)
  * src/xbase/layout/wires.py               (WireLookup, WireGraph)
  * src/xbase/layout/mos/placement/compact.py (row placement)

Python integers are modelled as Int; Python floor division and modulo
(divmod, //, %) are Int.fdiv / Int.fmod.  HalfInt track indices are
modelled by their doubled value (an Int), so adding one full track adds 2.
External collaborators (the routing-grid oracle, the TrackManager oracle,
the technology plug-in and the pybag disjoint-interval container) are
modelled as explicit parameters or as small Lean structures implementing
their documented interface.
-/

set_option maxHeartbeats 1000000
set_option synthInstance.maxHeartbeats 1000000

namespace Xbase

/-! ### Python helpers -/

/-- Python floor division a // b. -/
def pydiv (a b : Int) : Int := Int.fdiv a b

/-- Python modulo a % b. -/
def pymod (a b : Int) : Int := Int.fmod a b

/-- Python bisect.bisect_right on a sorted list: the number of entries that
are less than or equal to the key. -/
def bisectRight (l : List Int) (x : Int) : Nat := l.countP (fun y => decide (y <= x))

/-- Python bisect.bisect_left on a sorted list: the number of entries that
are strictly less than the key. -/
def bisectLeft (l : List Int) (x : Int) : Nat := l.countP (fun y => decide (y < x))

/-! ### Tile pattern algebra

Embedding of TilePatternElement / TilePattern from
src/xbase/layout/mos/placement/data.py.  A MOSBasePlaceInfo is abstracted
to the data these functions read: its height, its number of rows, and an
identity tag standing for the rest of its contents. -/

structure Tile where
  height : Int
  numRows : Int
  tag : Nat
  deriving DecidableEq, Repr

instance : Inhabited Tile := ⟨⟨0, 0, 0⟩⟩

mutual

inductive TPInfo : Type where
  | base : Tile → TPInfo
  | pat : List TPElem → TPInfo

inductive TPElem : Type where
  | mk : TPInfo → Bool → Bool → Int → TPElem

end

instance : Inhabited TPElem := ⟨.mk (.base default) true false 1⟩

def TPElem.info : TPElem → TPInfo
  | .mk i _ _ _ => i

def TPElem.mirror : TPElem → Bool
  | .mk _ m _ _ => m

def TPElem.flip : TPElem → Bool
  | .mk _ _ f _ => f

def TPElem.mult : TPElem → Int
  | .mk _ _ _ m => m

mutual

/-- Number of tiles of a unit of the wrapped info (1 for a single tile,
the pattern total for a nested pattern); TilePatternElement.num_tiles_unit. -/
def TPInfo.unitTiles : TPInfo → Int
  | .base _ => 1
  | .pat xs => patTiles xs

/-- TilePattern.num_tiles: total tile count of a pattern (last entry of the
cumulative _ntile_list). -/
def patTiles : List TPElem → Int
  | [] => 0
  | e :: r => e.numTiles + patTiles r

/-- TilePatternElement.num_tiles = num_tiles_unit * mult. -/
def TPElem.numTiles : TPElem → Int
  | .mk i _ _ m => i.unitTiles * m

end

mutual

/-- Row count of one unit of the wrapped info. -/
def TPInfo.unitRows : TPInfo → Int
  | .base t => t.numRows
  | .pat xs => patRows xs

/-- TilePattern.num_rows: last entry of the cumulative _nrow_list. -/
def patRows : List TPElem → Int
  | [] => 0
  | e :: r => e.numRows + patRows r

/-- TilePatternElement.num_rows = info.num_rows * mult. -/
def TPElem.numRows : TPElem → Int
  | .mk i _ _ m => i.unitRows * m

end

mutual

/-- Height of one unit of the wrapped info. -/
def TPInfo.unitHeight : TPInfo → Int
  | .base t => t.height
  | .pat xs => patHeight xs

/-- TilePattern.height: last entry of the cumulative _dy_list. -/
def patHeight : List TPElem → Int
  | [] => 0
  | e :: r => e.height + patHeight r

/-- TilePatternElement.height = info.height * mult. -/
def TPElem.height : TPElem → Int
  | .mk i _ _ m => i.unitHeight * m

end

/-- Cumulative list [0, c1, c1+c2, ...] built in TilePattern.__init__ for a
given per-element measure. -/
def cumListAux (f : TPElem → Int) (acc : Int) : List TPElem → List Int
  | [] => []
  | e :: r => (acc + f e) :: cumListAux f (acc + f e) r

def cumList (f : TPElem → Int) (xs : List TPElem) : List Int :=
  0 :: cumListAux f 0 xs

/-- TilePattern._ntile_list. -/
def ntileList (xs : List TPElem) : List Int := cumList TPElem.numTiles xs

/-- TilePattern._nrow_list. -/
def nrowList (xs : List TPElem) : List Int := cumList TPElem.numRows xs

/-- TilePattern._dy_list. -/
def dyList (xs : List TPElem) : List Int := cumList TPElem.height xs

/-- TilePattern.get_element_idx: bisect_right(self._ntile_list, tile_idx) - 1. -/
def patElementIdx (xs : List TPElem) (tileIdx : Int) : Nat :=
  bisectRight (ntileList xs) tileIdx - 1

/-- TilePatternElement.get_flip_unit:
((unit_idx & 1) and self._mirror) ^ self._flip. -/
def TPElem.getFlipUnit (e : TPElem) (unitIdx : Int) : Bool :=
  ((pymod unitIdx 2 == 1) && e.mirror).xor e.flip

mutual

/-- TilePatternElement.get_tile_info. -/
def TPElem.getTileInfo (e : TPElem) (tileIdx : Int) : Tile × Int × Bool :=
  match e with
  | .mk i _ _ _ =>
    match i with
    | .base t => (t, tileIdx * t.height, e.getFlipUnit tileIdx)
    | .pat xs =>
      let patNtile := patTiles xs
      let patH := patHeight xs
      let q := pydiv tileIdx patNtile
      let r0 := pymod tileIdx patNtile
      let flipPat := e.getFlipUnit q
      let r := if flipPat then patNtile - 1 - r0 else r0
      let (ans, y0, fl) := patGetTileInfo xs r
      let y1 := if flipPat then patH - y0 - ans.height else y0
      (ans, y1 + q * patH, fl.xor flipPat)
termination_by sizeOf e
decreasing_by
  all_goals simp_wf
  all_goals omega

/-- TilePattern.get_tile_info.  An out-of-range element index is an
IndexError in Python; that path returns a junk value here. -/
def patGetTileInfo (xs : List TPElem) (tileIdx : Int) : Tile × Int × Bool :=
  let listIdx := patElementIdx xs tileIdx
  if h : listIdx < xs.length then
    let tileOffset := (ntileList xs).getD listIdx 0
    let obj := xs.get ⟨listIdx, h⟩
    let (pinfo, y0, flipTile) := obj.getTileInfo (tileIdx - tileOffset)
    (pinfo, y0 + (dyList xs).getD listIdx 0, flipTile)
  else (default, 0, false)
termination_by sizeOf xs
decreasing_by
  all_goals simp_wf
  all_goals exact List.sizeOf_lt_of_mem (xs.get_mem _ _)

end

mutual

/-- TilePatternElement.num_tiles_to_rows. -/
def TPElem.numTilesToRows (e : TPElem) (numTiles : Int) : Int :=
  match e with
  | .mk i _ _ _ =>
    match i with
    | .base t => numTiles * t.numRows
    | .pat xs =>
      if numTiles == 0 then 0
      else
        let patNtile := patTiles xs
        let q := pydiv numTiles patNtile
        let r0 := pymod numTiles patNtile
        let ans := q * patRows xs
        let flipPat := e.getFlipUnit q
        if flipPat then
          ans + patRows xs - patNumTilesToRows xs (patNtile - r0)
        else
          ans + patNumTilesToRows xs r0
termination_by sizeOf e
decreasing_by
  all_goals simp_wf
  all_goals omega

/-- TilePattern.num_tiles_to_rows.  An out-of-range element index is an
IndexError in Python; that path returns a junk value here. -/
def patNumTilesToRows (xs : List TPElem) (numTiles : Int) : Int :=
  if numTiles == 0 then 0
  else
    let listIdx := patElementIdx xs (numTiles - 1)
    if h : listIdx < xs.length then
      let tileOffset := (ntileList xs).getD listIdx 0
      let ans := (nrowList xs).getD listIdx 0
      let obj := xs.get ⟨listIdx, h⟩
      ans + obj.numTilesToRows (numTiles - tileOffset)
    else 0
termination_by sizeOf xs
decreasing_by
  all_goals simp_wf
  all_goals exact List.sizeOf_lt_of_mem (xs.get_mem _ _)

end

mutual

/-- TilePatternElement.flat_row_to_tile_row. -/
def TPElem.flatRowToTileRow (e : TPElem) (flatRowIdx : Int) : Int × Int :=
  match e with
  | .mk i _ _ _ =>
    match i with
    | .base t =>
      let numRows := t.numRows
      let tileIdx := pydiv flatRowIdx numRows
      let rowIdx := pymod flatRowIdx numRows
      if e.getFlipUnit tileIdx then (tileIdx, numRows - 1 - rowIdx)
      else (tileIdx, rowIdx)
    | .pat xs =>
      let patNrow := patRows xs
      let q := pydiv flatRowIdx patNrow
      let r0 := pymod flatRowIdx patNrow
      let flipPat := e.getFlipUnit q
      let r := if flipPat then patNrow - 1 - r0 else r0
      let (tileIdx, rowIdx) := patFlatRowToTileRow xs r
      (tileIdx + q * patTiles xs, rowIdx)
termination_by sizeOf e
decreasing_by
  all_goals simp_wf
  all_goals omega

/-- TilePattern.flat_row_to_tile_row.  NOTE: faithfully to the source, the
element-local tile index is returned without adding the element tile
offset _ntile_list[list_idx]. -/
def patFlatRowToTileRow (xs : List TPElem) (flatRowIdx : Int) : Int × Int :=
  let listIdx := bisectRight (nrowList xs) flatRowIdx - 1
  if h : listIdx < xs.length then
    let rowOffset := (nrowList xs).getD listIdx 0
    let obj := xs.get ⟨listIdx, h⟩
    obj.flatRowToTileRow (flatRowIdx - rowOffset)
  else (0, 0)
termination_by sizeOf xs
decreasing_by
  all_goals simp_wf
  all_goals exact List.sizeOf_lt_of_mem (xs.get_mem _ _)

end

/-- TilePatternElement.get_flat_row_idx_and_flip. -/
def TPElem.getFlatRowIdxAndFlip (e : TPElem) (tileIdx rowIdx : Int) : Int × Bool :=
  let ans := e.numTilesToRows tileIdx
  let (info, _, flip) := e.getTileInfo tileIdx
  if flip then (ans + info.numRows - rowIdx - 1, flip)
  else (ans + rowIdx, flip)

/-- A two-row, height-10 tile used in concrete examples. -/
def tileA : Tile := ⟨10, 2, 0⟩

/-- A second two-row tile, distinguishable from tileA. -/
def tileB : Tile := ⟨10, 2, 1⟩

/-- A tile pattern element wrapping the two-tile pattern [tileA, tileB]. -/
def tpeAB : TPElem :=
  .mk (.pat [.mk (.base tileA) true false 1, .mk (.base tileB) true false 1]) true false 1

/-! ### ExtWidthInfo

Embedding of ExtWidthInfo from src/xbase/layout/mos/data.py: the
technology extension-width legality oracle answer object. -/

structure ExtWidthInfo where
  discreteWidths : List Int
  wmin : Int
  step : Int
  deriving DecidableEq, Repr

/-- ExtWidthInfo.is_valid. -/
def ExtWidthInfo.isValid (e : ExtWidthInfo) (w : Int) : Bool :=
  if w >= e.wmin then pymod (w - e.wmin) e.step == 0
  else
    let idx := bisectLeft e.discreteWidths w
    decide (idx ≠ e.discreteWidths.length) && (e.discreteWidths.getD idx 0 == w)

/-- The branch of ExtWidthInfo.get_next_width taken when w >= wmin. -/
def ExtWidthInfo.nextFromMin (e : ExtWidthInfo) (w : Int) (even : Bool) : Except String Int :=
  let diff := w - e.wmin
  let q := pydiv diff e.step
  let r := pymod diff e.step
  let ans := e.wmin + (q + (if r ≠ 0 then 1 else 0)) * e.step
  if even && (pymod ans 2 == 1) then
    if pymod e.step 2 == 0 then
      .error "Error: impossible to achieve even extension width.  See developer."
    else .ok (ans + e.step)
  else .ok ans

/-- The while loop in the discrete branch of get_next_width: first even
entry scanning forward. -/
def firstEven : List Int → Option Int
  | [] => none
  | x :: r => if pymod x 2 == 0 then some x else firstEven r

/-- ExtWidthInfo.get_next_width. -/
def ExtWidthInfo.getNextWidth (e : ExtWidthInfo) (w : Int) (even : Bool) : Except String Int :=
  if w >= e.wmin then e.nextFromMin w even
  else
    let idx := bisectLeft e.discreteWidths w
    if idx == e.discreteWidths.length then
      if even then e.nextFromMin e.wmin true else .ok e.wmin
    else
      if even then
        match firstEven (e.discreteWidths.drop idx) with
        | some v => .ok v
        | none => e.nextFromMin e.wmin true
      else .ok (e.discreteWidths.getD idx 0)

/-! ### MOSUsedArray

Embedding of MOSUsedArray.add_mos_raw / intv_iter from
src/xbase/layout/mos/util.py.  The MOSEdgeInfo / BlkExtInfo payloads are
opaque to these functions and are modelled by identity tags.  The pybag
PyDisjointIntervals container (an external collaborator) is modelled by a
sorted list of disjoint intervals with attached values; its add method
with merge=False, abut=True fails exactly when the new interval has a
nonempty intersection with a recorded one (abutting is allowed).  The
tile-pattern element of MOSUsedArray is omitted: add_mos_raw and
intv_iter never read it. -/

structure MOSEdgeInfo where
  tag : Nat
  deriving DecidableEq, Repr

structure BlkExtInfo where
  tag : Nat
  deriving DecidableEq, Repr

structure MOSAbutInfo where
  rowFlat : Int
  col : Int
  edgel : MOSEdgeInfo
  edger : MOSEdgeInfo
  deriving DecidableEq, Repr

abbrev IntvVal := BlkExtInfo × BlkExtInfo

/-- Two half-open intervals have a nonempty intersection. -/
def intvOverlap (a b : Int × Int) : Bool := a.1 < b.2 && b.1 < a.2

/-- One row of the pybag disjoint-interval container. -/
structure DisjRow where
  entries : List ((Int × Int) × IntvVal)
  deriving DecidableEq, Repr

/-- Sorted insertion by interval start. -/
def insertIntv (x : (Int × Int) × IntvVal) : List ((Int × Int) × IntvVal) →
    List ((Int × Int) × IntvVal)
  | [] => [x]
  | y :: r => if x.1.1 <= y.1.1 then x :: y :: r else y :: insertIntv x r

/-- PyDisjointIntervals.add with merge=False, abut=True: none exactly when
the interval overlaps an existing one. -/
def DisjRow.add (row : DisjRow) (intv : Int × Int) (v : IntvVal) : Option DisjRow :=
  if row.entries.any (fun e => intvOverlap e.1 intv) then none
  else some ⟨insertIntv (intv, v) row.entries⟩

structure MOSUsedArray where
  intvs : List DisjRow
  endFlags : List ((Int × Int) × Option MOSEdgeInfo)
  numCols : Int
  deriving DecidableEq, Repr

/-- Python list indexing with negative wrap; none is an IndexError. -/
def pyListIdx (n : Nat) (k : Int) : Option (Fin n) :=
  if h : 0 <= k ∧ k < (n : Int) then
    some ⟨k.toNat, by omega⟩
  else if h2 : -(n : Int) <= k ∧ k < 0 then
    some ⟨(k + n).toNat, by omega⟩
  else none

/-- Dictionary pop: the stored value (if any) and the remaining entries. -/
def dictPop (l : List ((Int × Int) × Option MOSEdgeInfo)) (k : Int × Int) :
    Option (Option MOSEdgeInfo) × List ((Int × Int) × Option MOSEdgeInfo) :=
  match l.find? (fun e => e.1 == k) with
  | none => (none, l)
  | some e => (some e.2, l.filter (fun x => x.1 != k))

/-- MOSUsedArray.get_interval. -/
def getInterval (colIdx seg : Int) (flipLr : Bool) : Int × Int :=
  (colIdx - (if flipLr then seg else 0), colIdx + (if flipLr then 0 else seg))

/-- MOSUsedArray._add_edge_info.  The abut list is threaded explicitly;
useAbut models abut_list being not None. -/
def addEdgeInfo (flags : List ((Int × Int) × Option MOSEdgeInfo)) (key : Int × Int)
    (info : Option MOSEdgeInfo) (isRight : Bool) (useAbut : Bool)
    (abut : List MOSAbutInfo) :
    List ((Int × Int) × Option MOSEdgeInfo) × List MOSAbutInfo :=
  match dictPop flags key with
  | (some (some curEdge), rest) =>
    match info, useAbut with
    | some i, true =>
      if isRight then (rest, abut ++ [⟨key.1, key.2, curEdge, i⟩])
      else (rest, abut ++ [⟨key.1, key.2, i, curEdge⟩])
    | _, _ => (rest, abut)
  | (some none, rest) => (rest ++ [(key, info)], abut)
  | (none, rest) => (rest ++ [(key, info)], abut)

/-- MOSUsedArray.add_mos_raw. -/
def MOSUsedArray.addMosRaw (a : MOSUsedArray) (flatRowIdx : Int) (flipTile : Bool)
    (colIdx seg : Int) (flipLr flipUd : Bool) (left right : Option MOSEdgeInfo)
    (top bottom : BlkExtInfo) (useAbut : Bool) (abut : List MOSAbutInfo) :
    Except String (MOSUsedArray × List MOSAbutInfo) :=
  let intv := getInterval colIdx seg flipLr
  let flipUdMos := flipTile.xor flipUd
  let v : IntvVal := if flipUdMos then (top, bottom) else (bottom, top)
  match pyListIdx a.intvs.length flatRowIdx with
  | none => .error "IndexError"
  | some i =>
    match (a.intvs.get i).add intv v with
    | none => .error "Failed to add transistor"
    | some row2 =>
      let flags := a.endFlags
      let (flags1, ab1) :=
        if flipLr then addEdgeInfo flags (flatRowIdx, intv.1) right true useAbut abut
        else addEdgeInfo flags (flatRowIdx, intv.1) left true useAbut abut
      let (flags2, ab2) :=
        if flipLr then addEdgeInfo flags1 (flatRowIdx, intv.2) left false useAbut ab1
        else addEdgeInfo flags1 (flatRowIdx, intv.2) right false useAbut ab1
      .ok (⟨a.intvs.set i row2, flags2, max a.numCols intv.2⟩, ab2)

/-- MOSUsedArray.intv_iter (for a valid row index). -/
def MOSUsedArray.intvIter (a : MOSUsedArray) (flatRowIdx : Int) : List (Int × Int) :=
  match pyListIdx a.intvs.length flatRowIdx with
  | none => []
  | some i => (a.intvs.get i).entries.map (fun e => e.1)

/-! ### CDBA name parsing and WireLookup

Embedding of _parse_cdba_name, _get_shared_set and WireLookup.get_move
from src/xbase/layout/wires.py.  Wire names are lists of characters;
track indices are HalfInt doubled values. -/

/-- Python int(): an optional sign followed by at least one digit. -/
def pyIntDigits : List Char → Option Int
  | [] => none
  | l =>
    if l.all (fun c => c.isDigit) then
      some (l.foldl (fun acc c => acc * 10 + ((c.toNat : Int) - 48)) 0)
    else none

/-- Python int() with an optional leading sign. -/
def pyInt (l : List Char) : Option Int :=
  match l with
  | '-' :: r => (pyIntDigits r).map (fun v => -v)
  | '+' :: r => pyIntDigits r
  | _ => pyIntDigits l

/-- Python str.split(sep) for a one-character separator. -/
def splitOnChar (sep : Char) : List Char → List (List Char)
  | [] => [[]]
  | c :: r =>
    let rest := splitOnChar sep r
    if c = sep then [] :: rest
    else
      match rest with
      | [] => [[c]]
      | h :: t => (c :: h) :: t

/-- Python range(a, b, s) for s ≠ 0. -/
def pyRange (a b s : Int) : List Int :=
  let cnt : Int := if s > 0 then pydiv (b - a + s - 1) s else pydiv (a - b - s - 1) (-s)
  (List.range cnt.toNat).map (fun i => a + s * i)

/-- The _parse_cdba_name function of src/xbase/layout/wires.py. -/
def parseCdbaName (name : List Char) : Except String (List Char × List Int) :=
  match name.getLast? with
  | none => .error "Cannot have empty string as wire name."
  | some lastChar =>
    if lastChar = '>' then
      match name.findIdx? (fun c => c = '<') with
      | none => .error "Illegal name"
      | some idx =>
        let basename := name.take idx
        if basename.contains ':' then .error "Illegal name"
        else
          let inner := (name.drop (idx + 1)).dropLast
          let rangeList := splitOnChar ':' inner
          match pyInt (rangeList.getD 0 []) with
          | none => .error "Illegal name"
          | some start =>
            let num := rangeList.length
            let stopStep : Except String (Int × Int) :=
              if num == 1 then .ok (start, 1)
              else
                match pyInt (rangeList.getD 1 []) with
                | none => .error "Illegal name"
                | some stop =>
                  if num == 2 then .ok (stop, 2 * (if stop > start then 1 else 0) - 1)
                  else
                    match pyInt (rangeList.getD 2 []) with
                    | none => .error "Illegal name"
                    | some step => .ok (stop, step)
            match stopStep with
            | .error e => .error e
            | .ok (stop, step) =>
              if step == 0 then .error "ZeroDivisionError"
              else
                let num2 := pydiv (stop - start) step + 1
                .ok (basename, pyRange start (start + num2 * step) step)
    else
      if name.contains '<' || name.contains ':' then .error "Illegal name"
      else .ok (name, pyRange 0 1 1)

/-- WireLookup: the read-only post-placement map from (basename, index) to
(doubled track index, width). -/
structure WireLookup where
  data : List ((List Char × Int) × (Int × Int))
  ranges : List (List Char × (Int × Int))
  deriving DecidableEq

/-- The _get_shared_set function: note that the tuple added is
(name, idx), with the full unparsed name. -/
def getSharedSet : List (List Char) → Except String (List (List Char × Int))
  | [] => .ok []
  | n :: r =>
    match parseCdbaName n with
    | .error e => .error e
    | .ok (_, idxList) =>
      match getSharedSet r with
      | .error e => .error e
      | .ok rest => .ok (idxList.map (fun i => (n, i)) ++ rest)

/-- WireLookup.get_move. -/
def WireLookup.getMove (w : WireLookup) (trIdx : Int) (shared : List (List Char)) :
    Except String WireLookup :=
  match getSharedSet shared with
  | .error e => .error e
  | .ok s =>
    .ok ⟨w.data.map (fun kv =>
        if s.contains kv.1 then kv else (kv.1, (kv.2.1 + trIdx, kv.2.2))), w.ranges⟩

/-! ### WireGraph placement engine

Embedding of WireGraph.place_compact, align_wires and _move from
src/xbase/layout/wires.py.  Wire nodes are identified by Nat keys (the
source uses (basename, index) tuples; the algorithms only test node
identity).  Track indices are HalfInt doubled values: one full track is
2, so the Python expression idx + 1 becomes idx + 2 here.  The routing
grid and TrackManager are external oracles, modelled as function records;
topological_sort of networkx is modelled by an order parameter that the
theorems constrain to be a topological order. -/

abbrev WType := List Char

structure WNode where
  nid : Nat
  wtype : WType
  ptype : WType
  width : Int
  shared : Bool
  evenSpaces : List Nat
  deriving DecidableEq

structure WGraph where
  nodes : List WNode
  edges : List (Nat × Nat)
  deriving DecidableEq

def WGraph.find? (g : WGraph) (k : Nat) : Option WNode :=
  g.nodes.find? (fun n => n.nid == k)

def WGraph.inDeg (g : WGraph) (k : Nat) : Nat :=
  (g.edges.filter (fun e => e.2 == k)).length

def WGraph.outDeg (g : WGraph) (k : Nat) : Nat :=
  (g.edges.filter (fun e => e.1 == k)).length

def WGraph.preds (g : WGraph) (k : Nat) : List Nat :=
  (g.edges.filter (fun e => e.2 == k)).map (fun e => e.1)

def WGraph.succs (g : WGraph) (k : Nat) : List Nat :=
  (g.edges.filter (fun e => e.1 == k)).map (fun e => e.2)

/-- HalfInt.div2 on doubled values. -/
def halfIntDiv2 (d : Int) : Int := pydiv d 2

/-- Python int() of a HalfInt given by its doubled value. -/
def halfIntToInt (d : Int) : Int := pydiv d 2

/-- The Python idiom -(-x // 2), i.e. the ceiling of x / 2. -/
def ceilHalf (x : Int) : Int := -(pydiv (-x) 2)

/-- The routing-grid oracle for one wire layer (all queries of
place_compact / align_wires at that layer). -/
structure GridOracle where
  coordToTrack : Int → Int
  trackToCoord : Int → Int
  findNextGEh : Int → Int → Int
  findNextGE : Int → Int → Int
  findNextLEh : Int → Int → Int
  findNextGEh1 : Int → Int
  wireBounds : Int → Int → Int × Int
  viaExtUp : Int → Int
  connSpLe : Int
  trackPitch : Int
  middleTrack : Int → Int → Int
  coordToTrackNearest : Int → Int

/-- The TrackManager oracle. -/
structure TrOracle where
  grid : GridOracle
  getNextTrack : Int → WType → WType → Bool → Bool → Int
  getSep : WType → WType → Bool → Bool → Int

/-- Pointwise function update. -/
def updFun (m : Nat → Int) (k : Nat) (v : Int) : Nat → Int :=
  fun x => if x == k then v else m x

/-- The index computed for one node in the topological walk of
place_compact (steps 1.i-1.iii of its docstring). -/
def pcNodeIdx (g : WGraph) (tm : TrOracle) (lower : Int) (botMirror : Bool) (shift : Int)
    (pcons : Option (WType → Int → Int → Int)) (prevSinks : List (Int × WType))
    (ytopConn : Option Int) (m : Nat → Int) (n : WNode) : Int :=
  let grid := tm.grid
  let c0 := grid.findNextGEh n.width lower
  let c1 := match pcons with
    | some f => f n.ptype n.width c0
    | none => c0
  if g.inDeg n.nid == 0 then
    if n.shared then grid.coordToTrack lower
    else
      let c2 := prevSinks.foldl
        (fun acc pv => max acc (tm.getNextTrack pv.1 pv.2 n.wtype true true)) c1
      let c3 := if botMirror then
          max c2 (halfIntDiv2 (tm.getSep n.wtype n.wtype true false))
        else c2
      c3 + shift
  else
    let c2 := if (g.outDeg n.nid == 0) && n.shared then
        match ytopConn with
        | some y =>
          let minYl := y + grid.connSpLe + grid.viaExtUp n.width
          max c1 (grid.findNextGE n.width minYl)
        | none => c1
      else c1
    (g.preds n.nid).foldl (fun acc p =>
      match g.find? p with
      | none => acc
      | some pn =>
        max acc (tm.getNextTrack (m p) pn.wtype n.wtype (!(n.evenSpaces.contains p)) true)) c2

/-- One step of the topological walk: assign the node its index. -/
def pcStep (g : WGraph) (tm : TrOracle) (lower : Int) (botMirror : Bool) (shift : Int)
    (pcons : Option (WType → Int → Int → Int)) (prevSinks : List (Int × WType))
    (ytopConn : Option Int) (m : Nat → Int) (k : Nat) : Nat → Int :=
  match g.find? k with
  | none => m
  | some n => updFun m k (pcNodeIdx g tm lower botMirror shift pcons prevSinks ytopConn m n)

/-- The bot_mirror self-mirror violation scan of place_compact.  NOTE:
faithfully to the source, idx_j is read from attrs_i (wires.py line 449),
so the tested quantity is idx_i + idx_i + 1 instead of idx_i + idx_j + 1. -/
def mirrorViolations (g : WGraph) (tm : TrOracle) (m : Nat → Int) :
    List Nat → List (Nat × Nat)
  | [] => []
  | i :: rest =>
    let tailViol :=
      match g.find? i with
      | none => []
      | some ni =>
        if ni.shared then []
        else
          rest.filterMap (fun j =>
            match g.find? j with
            | none => none
            | some nj =>
              if nj.shared then none
              else
                let idxI := m i
                let idxJ := m i
                let sep := tm.getSep ni.wtype nj.wtype true true
                if idxI + idxJ + 2 < sep then some (i, j) else none)
    tailViol ++ mirrorViolations g tm m rest

/-- One step of the sink scan computing the upper coordinate of
place_compact (step 3 of its docstring); tail is the list of sinks from
the current one onwards, exclusive. -/
def sinkUpperStep (g : WGraph) (tm : TrOracle) (topMirror : Bool) (m : Nat → Int)
    (cur : WNode) (tail : List Nat) (acc : Int × Bool) : Int × Bool :=
  if cur.shared then
    let midC := tm.grid.trackToCoord (m cur.nid)
    if midC >= acc.1 then (midC, true) else acc
  else
    let b0 := (tm.grid.wireBounds (m cur.nid) cur.width).2
    let b1 := if topMirror then
        (cur.nid :: tail).foldl (fun b compId =>
          match g.find? compId with
          | none => b
          | some comp =>
            if comp.shared then b
            else
              let sep := tm.getSep cur.wtype comp.wtype true true
              let ntrDbl := sep + m cur.nid + m compId
              max b (ceilHalf (halfIntToInt (ntrDbl * tm.grid.trackPitch))))
          b0
      else b0
    if b1 > acc.1 then (b1, false) else acc

/-- The sink scan over the whole sink list. -/
def upperRec (g : WGraph) (tm : TrOracle) (topMirror : Bool) (m : Nat → Int) :
    List Nat → Int × Bool → Int × Bool
  | [], acc => acc
  | s :: rest, acc =>
    match g.find? s with
    | none => upperRec g tm topMirror m rest acc
    | some n => upperRec g tm topMirror m rest (sinkUpperStep g tm topMirror m n rest acc)

/-- WireGraph.place_compact.  The topological sort of the networkx DAG is
passed in as the order parameter; the result is the final index
assignment together with the lower and upper coordinates. -/
def placeCompact (g : WGraph) (order : List Nat) (tm : TrOracle) (lower : Int)
    (botMirror topMirror : Bool) (shift : Int)
    (pcons : Option (WType → Int → Int → Int)) (prevSinks : List (Int × WType))
    (ytopConn : Option Int) : Except String ((Nat → Int) × Int × Int) :=
  let m1 := order.foldl (pcStep g tm lower botMirror shift pcons prevSinks ytopConn)
    (fun _ => 0)
  let srcList := order.filter (fun k => g.inDeg k == 0)
  let sinkList := order.filter (fun k => g.outDeg k == 0)
  if botMirror && !(mirrorViolations g tm m1 srcList).isEmpty then
    .error "lazy Eric, get to work"
  else
    let ub := upperRec g tm topMirror m1 sinkList (lower, false)
    let upper := if ub.2 then ub.1 else tm.grid.trackToCoord (tm.grid.findNextGEh1 ub.1)
    let trLast := tm.grid.coordToTrack upper
    let mFinal := fun k =>
      match g.find? k with
      | some n => if n.shared && sinkList.contains k then trLast else m1 k
      | none => m1 k
    .ok (mFinal, lower, upper)

/-! WireGraph.align_wires and WireGraph._move.  The per-node mutable state
(idx, harden) is a function from node ids; the recursion of _move over
graph neighbours terminates on a DAG, which is modelled by a fuel
parameter (set to more than the node count by align_wires). -/

inductive Alignment where
  | lowerCompact
  | centerCompact
  | upperCompact
  deriving DecidableEq, Repr

abbrev WSt := Nat → Int × Bool

def updSt (st : WSt) (k : Nat) (v : Int × Bool) : WSt :=
  fun x => if x == k then v else st x

/-- WireGraph._move. -/
def moveWire (g : WGraph) (tm : TrOracle) (lower upper : Int)
    (topPcons : Option (WType → Int → Int → Int)) :
    Nat → WSt → Nat → Bool → Bool → WSt
  | 0, st, _, _, _ => st
  | fuel + 1, st, wire, harden, up =>
    match g.find? wire with
    | none => st
    | some n =>
      if (st wire).2 then st
      else if n.shared then
        let cur := if g.outDeg wire == 0 then tm.grid.coordToTrack upper
          else tm.grid.coordToTrack lower
        updSt st wire (cur, true)
      else
        let c0 := if up then
            let c := tm.grid.findNextLEh n.width upper
            match topPcons with
            | some f => f n.ptype n.width c
            | none => c
          else tm.grid.findNextGEh n.width lower
        let nbrs := if up then g.succs wire else g.preds wire
        let stc := nbrs.foldl (fun (acc : WSt × Int) nb =>
          let st3 := moveWire g tm lower upper topPcons fuel acc.1 nb false up
          match g.find? nb with
          | none => (st3, acc.2)
          | some nn =>
            let halfSpace := if up then !(nn.evenSpaces.contains wire)
              else !(n.evenSpaces.contains nb)
            let nxt := tm.getNextTrack (st3 nb).1 nn.wtype n.wtype halfSpace (!up)
            (st3, if up then min acc.2 nxt else max acc.2 nxt)) (st, c0)
        updSt stc.1 wire (stc.2, harden)

structure AlignSpec where
  wires : List Nat
  align : Alignment
  deriving DecidableEq, Repr

/-- Processing of a single alignment group inside align_wires. -/
def alignGroup (g : WGraph) (tm : TrOracle) (lower upper : Int)
    (topPcons : Option (WType → Int → Int → Int)) (fuel : Nat) (middleIdx : Int)
    (st : WSt) (spec : AlignSpec) : WSt :=
  match spec.align with
  | .lowerCompact =>
    spec.wires.foldl (fun s w => moveWire g tm lower upper topPcons fuel s w true false) st
  | .upperCompact =>
    spec.wires.reverse.foldl
      (fun s w => moveWire g tm lower upper topPcons fuel s w true true) st
  | .centerCompact =>
    let wireList := spec.wires
    let hardIdxList := (List.range wireList.length).filter
      (fun i => (st (wireList.getD i 0)).2)
    let numHard := hardIdxList.length
    if numHard > 0 then
      let centerIdx := hardIdxList.getD (numHard / 2) 0
      let stDown := (List.range centerIdx).reverse.foldl
        (fun s i => moveWire g tm lower upper topPcons fuel s (wireList.getD i 0) true true) st
      (List.range (wireList.length - centerIdx - 1)).foldl
        (fun s j =>
          moveWire g tm lower upper topPcons fuel s (wireList.getD (centerIdx + 1 + j) 0)
            true false)
        stDown
    else
      let curIdx := tm.grid.middleTrack (st (wireList.getD 0 0)).1
        (st (wireList.getD (wireList.length - 1) 0)).1
      let delta := middleIdx - curIdx
      wireList.foldl (fun s w => updSt s w ((s w).1 + delta, true)) st

/-- WireGraph.align_wires. -/
def alignWires (g : WGraph) (aligns : List AlignSpec) (tm : TrOracle)
    (lower upper : Int) (topPcons : Option (WType → Int → Int → Int)) (st0 : WSt) : WSt :=
  let st : WSt := fun k => ((st0 k).1, false)
  let middleIdx := tm.grid.coordToTrackNearest (pydiv (lower + upper) 2)
  let fuel := g.nodes.length + 1
  aligns.foldl (alignGroup g tm lower upper topPcons fuel middleIdx) st

/-! ### Row and tile data model

Embedding of MOSType, RowExtInfo, MOSRowInfo, RowPlaceInfo (from
src/xbase/layout/mos/data.py) and of MOSArrayPlaceInfo,
MOSBasePlaceInfo, TileInfoTable (from
src/xbase/layout/mos/placement/data.py) as far as the serialization
round trip and row placement read them.  Opaque payload dictionaries
(ImmutableSortedDict contents that are written to YAML by to_yaml /
to_dict and read back verbatim) are modelled by identity tags; the YAML
layer itself (bag.io read_yaml / write_yaml, an external collaborator)
is modelled as the identity on the saved records. -/

inductive MOSType where
  | nch
  | ptap
  | pch
  | ntap
  deriving DecidableEq, Repr

def MOSType.isSubstrate : MOSType → Bool
  | .ptap => true
  | .ntap => true
  | _ => false

structure RowExtInfo where
  rowType : MOSType
  threshold : List Char
  infoTag : Nat
  deriving DecidableEq, Repr

structure MOSRowInfo where
  lch : Int
  width : Int
  subWidth : Int
  rowType : MOSType
  threshold : List Char
  height : Int
  flip : Bool
  topExtInfo : RowExtInfo
  botExtInfo : RowExtInfo
  infoTag : Nat
  gConnY : Int × Int
  gmConnY : Int × Int
  dsConnY : Int × Int
  dsmConnY : Int × Int
  dsgConnY : Int × Int
  subConnY : Int × Int
  guardRing : Bool
  guardRingCol : Bool
  doubleGate : Bool
  g2ConnY : Int × Int
  g2mConnY : Int × Int
  deriving DecidableEq, Repr

/-- The fields MOSRowInfo.to_dict writes (its key_list plus row_type and
the extension infos): guard_ring_col is not among them. -/
structure SavedRowInfo where
  lch : Int
  width : Int
  subWidth : Int
  rowType : MOSType
  threshold : List Char
  height : Int
  flip : Bool
  topExtInfo : RowExtInfo
  botExtInfo : RowExtInfo
  infoTag : Nat
  gConnY : Int × Int
  gmConnY : Int × Int
  dsConnY : Int × Int
  dsmConnY : Int × Int
  dsgConnY : Int × Int
  subConnY : Int × Int
  guardRing : Bool
  doubleGate : Bool
  g2ConnY : Int × Int
  g2mConnY : Int × Int
  deriving DecidableEq, Repr

/-- MOSRowInfo.to_dict. -/
def MOSRowInfo.toDict (r : MOSRowInfo) : SavedRowInfo :=
  ⟨r.lch, r.width, r.subWidth, r.rowType, r.threshold, r.height, r.flip, r.topExtInfo,
    r.botExtInfo, r.infoTag, r.gConnY, r.gmConnY, r.dsConnY, r.dsmConnY, r.dsgConnY,
    r.subConnY, r.guardRing, r.doubleGate, r.g2ConnY, r.g2mConnY⟩

/-- MOSRowInfo.from_dict: guard_ring_col is absent from the table and
defaults to False. -/
def rowInfoFromDict (s : SavedRowInfo) : MOSRowInfo :=
  ⟨s.lch, s.width, s.subWidth, s.rowType, s.threshold, s.height, s.flip, s.topExtInfo,
    s.botExtInfo, s.infoTag, s.gConnY, s.gmConnY, s.dsConnY, s.dsmConnY, s.dsgConnY,
    s.subConnY, s.guardRing, false, s.doubleGate, s.g2ConnY, s.g2mConnY⟩

/-- The range table built by WireLookup.__init__ when ranges is None. -/
def buildRanges (d : List ((List Char × Int) × (Int × Int))) :
    List (List Char × (Int × Int)) :=
  d.foldl (fun acc kv =>
    let nm := kv.1.1
    let i := kv.1.2
    match acc.find? (fun e => e.1 == nm) with
    | none => acc ++ [(nm, (i, i))]
    | some _ => acc.map (fun e => if e.1 == nm then (nm, (min e.2.1 i, max e.2.2 i)) else e))
    []

/-- WireLookup.to_dict (the HalfInt values round trip losslessly). -/
def WireLookup.toDict (w : WireLookup) : List ((List Char × Int) × (Int × Int)) := w.data

/-- WireLookup.from_dict. -/
def WireLookup.fromDict (d : List ((List Char × Int) × (Int × Int))) : WireLookup :=
  ⟨d, buildRanges d⟩

/-- WireLookup.__eq__ compares only the _data table. -/
def wireLookupBEq (x y : WireLookup) : Bool := x.data == y.data

structure RowPlaceInfoF where
  rowInfo : MOSRowInfo
  botWires : WireLookup
  topWires : WireLookup
  yb : Int
  yt : Int
  ybBlk : Int
  ytBlk : Int
  yConn : Int × Int
  midWires : Option WireLookup

/-- RowPlaceInfo equality: bot_wires and top_wires carry compare=False and
are ignored; mid_wires is compared. -/
def rowPlaceInfoBEq (a b : RowPlaceInfoF) : Bool :=
  a.rowInfo == b.rowInfo && a.yb == b.yb && a.yt == b.yt && a.ybBlk == b.ybBlk &&
  a.ytBlk == b.ytBlk && a.yConn == b.yConn &&
  (match a.midWires, b.midWires with
   | none, none => true
   | some x, some y => wireLookupBEq x y
   | _, _ => false)

/-- The fields entering the generated RowPlaceInfo hash (the compare=True
fields; WireLookup hashes its _data). -/
def rowPlaceInfoHashFields (r : RowPlaceInfoF) :=
  (r.rowInfo, r.yb, r.yt, r.ybBlk, r.ytBlk, r.yConn,
    r.midWires.map (fun w => w.data))

structure SavedRowPlaceInfo where
  rowInfo : SavedRowInfo
  botWires : List ((List Char × Int) × (Int × Int))
  topWires : List ((List Char × Int) × (Int × Int))
  yb : Int
  yt : Int
  ybBlk : Int
  ytBlk : Int
  yConn : Int × Int
  midWires : List ((List Char × Int) × (Int × Int))
  deriving DecidableEq, Repr

/-- RowPlaceInfo.to_dict: calling it with mid_wires = None raises
(self.mid_wires.to_dict() on None). -/
def RowPlaceInfoF.toDict (r : RowPlaceInfoF) : Except String SavedRowPlaceInfo :=
  match r.midWires with
  | none => .error "AttributeError: NoneType has no to_dict"
  | some mw =>
    .ok ⟨r.rowInfo.toDict, r.botWires.toDict, r.topWires.toDict, r.yb, r.yt, r.ybBlk,
      r.ytBlk, r.yConn, mw.toDict⟩

/-- RowPlaceInfo.from_dict. -/
def rowPlaceInfoFromDict (s : SavedRowPlaceInfo) : RowPlaceInfoF :=
  ⟨rowInfoFromDict s.rowInfo, WireLookup.fromDict s.botWires, WireLookup.fromDict s.topWires,
    s.yb, s.yt, s.ybBlk, s.ytBlk, s.yConn, some (WireLookup.fromDict s.midWires)⟩

structure MOSArrayPlaceInfoM where
  lch : Int
  connLayer : Int
  topLayer : Int
  halfSpace : Bool
  widthsTag : Nat
  spacesTag : Nat
  optionsTag : Nat
  deriving DecidableEq, Repr

/-- The record _save_arr_info writes (tr_widths / tr_spaces / arr_options
serialize faithfully and are carried as tags). -/
structure SavedArrInfo where
  lch : Int
  connLayer : Int
  topLayer : Int
  halfSpace : Bool
  widthsTag : Nat
  spacesTag : Nat
  optionsTag : Nat
  deriving DecidableEq, Repr

def saveArrInfo (a : MOSArrayPlaceInfoM) : SavedArrInfo :=
  ⟨a.lch, a.connLayer, a.topLayer, a.halfSpace, a.widthsTag, a.spacesTag, a.optionsTag⟩

/-- MOSArrayPlaceInfo.make_array_info applied to a saved record (the
routing grid argument is shared by both sides of the round trip). -/
def makeArrayInfo (s : SavedArrInfo) : MOSArrayPlaceInfoM :=
  ⟨s.lch, s.connLayer, s.topLayer, s.halfSpace, s.widthsTag, s.spacesTag, s.optionsTag⟩

/-- The fields entering the MOSArrayPlaceInfo hash chain. -/
def arrInfoHashFields (a : MOSArrayPlaceInfoM) :=
  (a.lch, (a.widthsTag, a.spacesTag, a.halfSpace), a.connLayer, a.topLayer, a.halfSpace,
    a.optionsTag)

structure MOSBasePlaceInfoF where
  name : List Char
  arrInfo : MOSArrayPlaceInfoM
  rpList : List RowPlaceInfoF
  botMirror : Bool
  topMirror : Bool
  optionsTag : Nat
  priority : Int
  wireLookup : List (Int × WireLookup)

/-- MOSBasePlaceInfo.get_mirror. -/
def MOSBasePlaceInfoF.getMirror (p : MOSBasePlaceInfoF) (topEdge : Bool) : Bool :=
  (topEdge && p.topMirror) || (!topEdge && p.botMirror)

/-- MOSBasePlaceInfo.__eq__: name, arr_info, row list, options and
wire_lookup are compared; the mirror flags and priority are not. -/
def basePInfoBEq (a b : MOSBasePlaceInfoF) : Bool :=
  a.name == b.name && a.arrInfo == b.arrInfo &&
  a.rpList.length == b.rpList.length &&
  (List.zip a.rpList b.rpList).all (fun p => rowPlaceInfoBEq p.1 p.2) &&
  a.optionsTag == b.optionsTag &&
  a.wireLookup.length == b.wireLookup.length &&
  (List.zip a.wireLookup b.wireLookup).all
    (fun p => p.1.1 == p.2.1 && wireLookupBEq p.1.2 p.2.2)

/-- The fields entering the MOSBasePlaceInfo hash chain
(arr_info, name, row list, options). -/
def basePInfoHashFields (p : MOSBasePlaceInfoF) :=
  (arrInfoHashFields p.arrInfo, p.name, p.rpList.map rowPlaceInfoHashFields, p.optionsTag)

/-- The per-tile YAML file written by _save_place_info. -/
structure SavedPlaceInfo where
  rpList : List SavedRowPlaceInfo
  botMirror : Bool
  topMirror : Bool
  optionsTag : Nat
  priority : Int
  deriving DecidableEq, Repr

/-- An effectful list map in the Except monad (a Python loop that may
raise). -/
def exceptMapList (f : α → Except String β) : List α → Except String (List β)
  | [] => .ok []
  | a :: r =>
    match f a with
    | .error e => .error e
    | .ok b =>
      match exceptMapList f r with
      | .error e => .error e
      | .ok bs => .ok (b :: bs)

def savePlaceInfo (p : MOSBasePlaceInfoF) : Except String SavedPlaceInfo :=
  match exceptMapList RowPlaceInfoF.toDict p.rpList with
  | .error e => .error e
  | .ok rp => .ok ⟨rp, p.getMirror false, p.getMirror true, p.optionsTag, p.priority⟩

/-- The per-tile reconstruction in TileInfoTable.load: priority is not
read back (defaults to 0) and wire_lookup is not reconstructed. -/
def loadPlaceInfo (ainfo : MOSArrayPlaceInfoM) (name : List Char) (s : SavedPlaceInfo) :
    MOSBasePlaceInfoF :=
  ⟨name, ainfo, s.rpList.map rowPlaceInfoFromDict, s.botMirror, s.topMirror, s.optionsTag,
    0, []⟩

structure TileInfoTableF where
  arrInfo : MOSArrayPlaceInfoM
  pinfoDict : List (List Char × MOSBasePlaceInfoF)

def arrInfoName : List Char := ['a', 'r', 'r', '_', 'i', 'n', 'f', 'o']

/-- The directory written by TileInfoTable.save: arr_info.yaml plus one
YAML file per tile name. -/
structure SavedTileDir where
  arrInfo : SavedArrInfo
  tiles : List (List Char × SavedPlaceInfo)

/-- TileInfoTable.save. -/
def TileInfoTableF.save (t : TileInfoTableF) : Except String SavedTileDir :=
  match exceptMapList (fun e => (savePlaceInfo e.2).map (fun s => (e.1, s))) t.pinfoDict with
  | .error e => .error e
  | .ok tiles => .ok ⟨saveArrInfo t.arrInfo, tiles⟩

/-- The per-name loop of TileInfoTable.load. -/
def loadTiles (ainfo : MOSArrayPlaceInfoM) (tiles : List (List Char × SavedPlaceInfo)) :
    List (List Char) → Except String (List (List Char × MOSBasePlaceInfoF))
  | [] => .ok []
  | nm :: rest =>
    if nm == arrInfoName then .error "Illegal MOSBasePlaceInfo name"
    else
      match tiles.find? (fun e => e.1 == nm) with
      | none => .error "FileNotFoundError"
      | some e =>
        match loadTiles ainfo tiles rest with
        | .error msg => .error msg
        | .ok tail => .ok ((nm, loadPlaceInfo ainfo nm e.2) :: tail)

/-- TileInfoTable.load: specNames is the key list of the place_info entry
of specs.yaml in the load directory. -/
def tileTableLoad (specNames : List (List Char)) (dir : SavedTileDir) :
    Except String TileInfoTableF :=
  let ainfo := makeArrayInfo dir.arrInfo
  match loadTiles ainfo dir.tiles specNames with
  | .error e => .error e
  | .ok d => .ok ⟨ainfo, d⟩

/-! ### Row placement (C5)

Embedding of _place_rows, _place_mirror and the RowPlaceSpecs
construction from src/xbase/layout/mos/placement/compact.py.  The wire
graphs of each row interact with the geometry only through a handful of
numbers; those interactions (placement bounds of the bottom wires, the
_calc_vm_dy line-end query as a function of ycur, the shared connection
Y, the top wire graph upper bound as a function of ycur, and the
conn-layer Y bounds as functions of ycur) are supplied per row as an
oracle record quantified over in the theorems, while the geometric
bookkeeping (ycur chain, extension-width legality, iteration loops and
the RowPlaceInfo assembly) is translated directly. -/

def coordMin : Int := -(2 ^ 62)

def coordMax : Int := 2 ^ 62

/-- The Python rounding idiom -(-y // p) * p. -/
def ceilToPitch (y pitch : Int) : Int := -(pydiv (-y) pitch) * pitch

structure PRGrid where
  viaExtLow : Int → Int
  wireBoundsHi : Int → Int → Int

structure TechOracle where
  blkHPitch : Int
  getExtWidthInfo : RowExtInfo → RowExtInfo → Bool → ExtWidthInfo

/-- The part of RowPlaceSpecs read by _place_rows. -/
structure RowPlaceSpecsM where
  rowInfo : MOSRowInfo
  botExtInfo : RowExtInfo
  topExtInfo : RowExtInfo
  ignoreBotVmSpLe : Bool
  ignoreTopVmSpLe : Bool
  doubleGate : Bool
  deriving DecidableEq, Repr

/-- The extension-info selection of _get_row_place_specs: a flipped row
contributes its top extension info at its bottom edge and vice versa. -/
def mkRowPlaceSpecs (ri : MOSRowInfo) (ignoreBot ignoreTop doubleGate : Bool) :
    RowPlaceSpecsM :=
  ⟨ri, if ri.flip then ri.topExtInfo else ri.botExtInfo,
    if ri.flip then ri.botExtInfo else ri.topExtInfo, ignoreBot, ignoreTop, doubleGate⟩

/-- Wire-layer interactions of one row, abstracted as functions. -/
structure RowWireOracle where
  botBnd : List ((Int × Int) × Int)
  dy : Int → Int → Int
  sharedConnY : Int
  topUpper : Int → Int
  connYB : Int → Int × Int
  connYT : Int → Int × Int

/-- The C5-relevant fields of one RowPlaceInfo produced by _place_rows. -/
structure RowPlaceInfoC where
  yb : Int
  yt : Int
  ybBlk : Int
  ytBlk : Int
  yConn : Int × Int
  deriving DecidableEq, Repr

/-- The _place_mirror helper of compact.py. -/
def placeMirror (tech : TechOracle) (extInfo : RowExtInfo) (ycur : Int) (ignoreVm : Bool) :
    Except String (Int × Int) :=
  let ewi := tech.getExtWidthInfo extInfo extInfo ignoreVm
  let extWCur := pydiv ycur tech.blkHPitch
  match ewi.getNextWidth (2 * extWCur) true with
  | .error e => .error e
  | .ok extWTot =>
    let extWAns := pydiv extWTot 2
    .ok (ycur + (extWAns - extWCur) * tech.blkHPitch, extWAns)

/-- The line-end-spacing fixup loop of _place_rows (bounded by max_iter;
each pass recomputes a legal extension height and re-queries the line-end
margin). -/
def dyLoop (pitch : Int) (ewi : ExtWidthInfo) (dyF : Int → Int → Int)
    (ytopPrev prevExtH ytopConnPrev : Int) :
    Nat → Int → Int → Except String Int
  | 0, ycur, dy =>
    if dy > 0 then .error "maximum iteration reached, still cannot resolve line-end spacing"
    else .ok ycur
  | fuel + 1, ycur, dy =>
    if dy > 0 then
      let y1 := ceilToPitch (ycur + dy) pitch
      let curBotExtH := pydiv (y1 - ytopPrev) pitch
      match ewi.getNextWidth (prevExtH + curBotExtH) false with
      | .error e => .error e
      | .ok extH =>
        let y2 := ytopPrev + pitch * (extH - prevExtH)
        dyLoop pitch ewi dyF ytopPrev prevExtH ytopConnPrev fuel y2 (dyF y2 ytopConnPrev)
    else .ok ycur

/-- The top-mirror regrow loop of the last row (unbounded while loop in
the source, given fuel here). -/
def topMirrorLoop (tech : TechOracle) (topExt : RowExtInfo) (ignoreTop : Bool)
    (ytopBlk totPitch : Int) : Nat → Int → Except String Int
  | 0, _ => .error "top mirror fuel exhausted"
  | fuel + 1, ytop =>
    let ytopDelta := ytop - ytopBlk
    match placeMirror tech topExt ytopDelta ignoreTop with
    | .error e => .error e
    | .ok res =>
      if res.1 != ytop - ytopBlk then
        topMirrorLoop tech topExt ignoreTop ytopBlk totPitch fuel
          (ceilToPitch (ytop + res.1 - ytopDelta) totPitch)
      else .ok ytop

/-- One iteration of the row loop of _place_rows: returns the RowPlaceInfo
of the row together with the next (ytop_prev, prev_ext_h, ytop_conn_prev)
state. -/
def placeRowStep (grid : PRGrid) (tech : TechOracle) (totHeightMin totHeightPitch : Int)
    (botMirror topMirror : Bool) (mirrorFuel : Nat) (numRows : Nat)
    (specs : RowPlaceSpecsM) (wo : RowWireOracle) (idx : Nat)
    (ytopPrev prevExtH ytopConnPrev : Int) (prevExtInfo : Option RowExtInfo) :
    Except String (RowPlaceInfoC × Int × Int × Int) :=
  let pitch := tech.blkHPitch
  let blkH := specs.rowInfo.height
  let ycur0 := wo.botBnd.foldl (fun y e =>
    max y (grid.wireBoundsHi e.1.1 e.1.2 + grid.viaExtLow e.1.2 - e.2)) ytopPrev
  let ycur1 := ceilToPitch ycur0 pitch
  let fixRes : Except String (Int × ExtWidthInfo) :=
    if idx == 0 then
      if botMirror then
        let ewi := tech.getExtWidthInfo specs.botExtInfo specs.botExtInfo
          specs.ignoreBotVmSpLe
        match placeMirror tech specs.botExtInfo ycur1 specs.ignoreBotVmSpLe with
        | .error e => .error e
        | .ok res => .ok (res.1, ewi)
      else .ok (ycur1, ⟨[], 0, 1⟩)
    else
      match prevExtInfo with
      | none => .error "missing previous extension info"
      | some pei =>
        let ewi := tech.getExtWidthInfo pei specs.botExtInfo specs.ignoreBotVmSpLe
        let curBotExtH := pydiv (ycur1 - ytopPrev) pitch
        match ewi.getNextWidth (prevExtH + curBotExtH) false with
        | .error e => .error e
        | .ok extH => .ok (ytopPrev + pitch * (extH - prevExtH), ewi)
  match fixRes with
  | .error e => .error e
  | .ok fixed =>
    let ycur2 := fixed.1
    let ewi := fixed.2
    let ytopConnPrev1 := max ytopConnPrev wo.sharedConnY
    let ycurRes : Except String Int :=
      if ytopConnPrev1 != coordMin && !specs.ignoreBotVmSpLe then
        dyLoop pitch ewi wo.dy ytopPrev prevExtH ytopConnPrev1 100 ycur2
          (wo.dy ycur2 ytopConnPrev1)
      else .ok ycur2
    match ycurRes with
    | .error e => .error e
    | .ok ycur =>
      let isTopRow := idx == numRows - 1
      let cb := wo.connYB ycur
      let ct := wo.connYT ycur
      let ytopBlk := ycur + blkH
      let ytop0 := max ytopBlk (wo.topUpper ycur)
      let rowHCur := ceilToPitch (ytop0 - ytopPrev) pitch
      let ytop1 := ytopPrev + rowHCur
      let ytopRes : Except String Int :=
        if isTopRow then
          let ytop2 := ceilToPitch (max ytop1 totHeightMin) totHeightPitch
          if topMirror then
            topMirrorLoop tech specs.topExtInfo specs.ignoreTopVmSpLe ytopBlk
              totHeightPitch mirrorFuel ytop2
          else .ok ytop2
        else .ok ytop1
      match ytopRes with
      | .error e => .error e
      | .ok ytop =>
        let curTopExtH := pydiv (ytop - ytopBlk) pitch
        let ybConn := min cb.1 ct.1
        let ytConn := max cb.2 ct.2
        .ok (⟨ytopPrev, ytop, ycur, ytopBlk, (ybConn, ytConn)⟩, ytop, curTopExtH, ytConn)

/-- The main row loop of _place_rows. -/
def placeRowsGo (grid : PRGrid) (tech : TechOracle) (totHeightMin totHeightPitch : Int)
    (botMirror topMirror : Bool) (mirrorFuel : Nat) (numRows : Nat) :
    List (RowPlaceSpecsM × RowWireOracle) → Nat → Int → Int → Int → Option RowExtInfo →
    List RowPlaceInfoC → Except String (List RowPlaceInfoC)
  | [], _, _, _, _, _, acc => .ok acc
  | (specs, wo) :: rest, idx, ytopPrev, prevExtH, ytopConnPrev, prevExtInfo, acc =>
    match placeRowStep grid tech totHeightMin totHeightPitch botMirror topMirror mirrorFuel
      numRows specs wo idx ytopPrev prevExtH ytopConnPrev prevExtInfo with
    | .error e => .error e
    | .ok st =>
      placeRowsGo grid tech totHeightMin totHeightPitch botMirror topMirror mirrorFuel
        numRows rest (idx + 1) st.2.1 st.2.2.1 st.2.2.2 (some specs.topExtInfo)
        (acc ++ [st.1])

/-- The _place_rows function (geometry outputs only). -/
def placeRows (grid : PRGrid) (tech : TechOracle) (totHeightMin totHeightPitch : Int)
    (botMirror topMirror : Bool) (mirrorFuel : Nat)
    (rows : List (RowPlaceSpecsM × RowWireOracle)) : Except String (List RowPlaceInfoC) :=
  placeRowsGo grid tech totHeightMin totHeightPitch botMirror topMirror mirrorFuel
    rows.length rows 0 0 0 coordMin none []

/-! ### Abutment processing of TileInfoTable.make_tiles (C8)

Embedding of the abut_list loop of TileInfoTable.make_tiles
(src/xbase/layout/mos/placement/data.py lines 1190-1235).  The tiles are
already built; each tile is abstracted to its mirror flags, its extend
priority and an identity tag; get_abut_info and get_extend are oracles
over those tags. -/

structure PInfoM where
  botMirror : Bool
  topMirror : Bool
  priority : Int
  tag : Nat
  deriving DecidableEq, Repr

def PInfoM.getMirror (p : PInfoM) (topEdge : Bool) : Bool :=
  (topEdge && p.topMirror) || (!topEdge && p.botMirror)

structure AbutEntry where
  name1 : List Char
  edgeCode1 : Int
  name2 : List Char
  edgeCode2 : Int
  shared1 : List (List Char)
  shared2 : List (List Char)

structure AbutOracle where
  abutInfo : Nat → Bool → Nat → Bool → List (List Char) → List (List Char) →
    Int × ExtWidthInfo × Int × Int
  extend : Nat → Int → Bool → ExtWidthInfo → Int → Int → List (List Char) →
    Except String PInfoM

def dictLookupP (d : List (List Char × PInfoM)) (k : List Char) : Option PInfoM :=
  (d.find? (fun e => e.1 == k)).map (fun e => e.2)

def dictUpdateP (d : List (List Char × PInfoM)) (k : List Char) (v : PInfoM) :
    List (List Char × PInfoM) :=
  d.map (fun e => if e.1 == k then (k, v) else e)

/-- The abut_list loop of make_tiles. -/
def makeTilesAbutLoop (oracle : AbutOracle) :
    List (List Char × PInfoM) → List AbutEntry → Except String (List (List Char × PInfoM))
  | dict, [] => .ok dict
  | dict, entry :: rest =>
    match dictLookupP dict entry.name1, dictLookupP dict entry.name2 with
    | some p1, some p2 =>
      let topEdge1 := entry.edgeCode1 != 0
      let topEdge2 := entry.edgeCode2 != 0
      let info := oracle.abutInfo p1.tag topEdge1 p2.tag topEdge2 entry.shared1 entry.shared2
      let margin := info.1
      let extWInfo := info.2.1
      let em1 := info.2.2.1
      let em2 := info.2.2.2
      if margin > 0 then
        let mirror1 := p1.getMirror topEdge1
        let mirror2 := p2.getMirror topEdge2
        let ext1res : Except String Bool :=
          if mirror1 == mirror2 then
            if p1.priority > p2.priority then .ok true
            else if p2.priority > p1.priority then .ok false
            else .error "Cannot decide whether to extend tile, please set the priority property."
          else if mirror1 then .ok false
          else .ok true
        match ext1res with
        | .error e => .error e
        | .ok ext1 =>
          if ext1 then
            match oracle.extend p1.tag margin topEdge1 extWInfo em1 em2 entry.shared1 with
            | .error e => .error e
            | .ok p1n => makeTilesAbutLoop oracle (dictUpdateP dict entry.name1 p1n) rest
          else
            match oracle.extend p2.tag margin topEdge2 extWInfo em2 em1 entry.shared2 with
            | .error e => .error e
            | .ok p2n => makeTilesAbutLoop oracle (dictUpdateP dict entry.name2 p2n) rest
      else makeTilesAbutLoop oracle dict rest
    | _, _ => .error "KeyError"

/-- The abutment stage of TileInfoTable.make_tiles: the abut loop followed
by the tile-name validity check. -/
def makeTilesAbut (oracle : AbutOracle) (dict0 : List (List Char × PInfoM))
    (entries : List AbutEntry) : Except String (List (List Char × PInfoM)) :=
  match makeTilesAbutLoop oracle dict0 entries with
  | .error e => .error e
  | .ok dict =>
    if dict.any (fun e => e.1 == arrInfoName) then .error "Illegal MOSBasePlaceInfo name"
    else .ok dict

/-! ### Concrete instances used by witnesses and counterexamples -/

/-- An identity-like routing-grid oracle on a unit grid. -/
def idGrid : GridOracle where
  coordToTrack := fun c => c
  trackToCoord := fun t => t
  findNextGEh := fun _ c => c
  findNextGE := fun _ c => c
  findNextLEh := fun _ c => c
  findNextGEh1 := fun c => c
  wireBounds := fun i _ => (i, i)
  viaExtUp := fun _ => 0
  connSpLe := 0
  trackPitch := 2
  middleTrack := fun a b => pydiv (a + b) 2
  coordToTrackNearest := fun c => c

/-- A TrackManager oracle requiring one full track of separation. -/
def sepTr : TrOracle where
  grid := idGrid
  getNextTrack := fun i _ _ _ up => if up then i + 2 else i - 2
  getSep := fun _ _ _ _ => 2

/-- Wire graph for the C1 witness: shared source 0 -> 1 -> shared sink 2. -/
def gW : WGraph where
  nodes := [⟨0, ['g'], [], 1, true, []⟩, ⟨1, ['d'], [], 1, false, []⟩,
    ⟨2, ['s'], [], 1, true, []⟩]
  edges := [(0, 1), (1, 2)]

/-- Grid oracle for the C9 failing input: the start index depends on the
wire width. -/
def gridC9 : GridOracle :=
  { idGrid with findNextGEh := fun w c => c + 2 * w }

/-- TrackManager oracle for the C9 failing input: same-color half-space
separation of 5.5 tracks, whole-track separation 0. -/
def trC9 : TrOracle where
  grid := gridC9
  getNextTrack := fun i _ _ _ up => if up then i + 2 else i - 2
  getSep := fun _ _ _ half => if half then 11 else 0

/-- Graph for the C9 failing input: two independent non-shared source
wires of widths 3 and 1. -/
def gC9 : WGraph where
  nodes := [⟨0, ['g'], [], 3, false, []⟩, ⟨1, ['d'], [], 1, false, []⟩]
  edges := []

/-- Graph for the C7 counterexample: a two-wire chain 0 -> 1, one
LOWER_COMPACT alignment group. -/
def gC7 : WGraph where
  nodes := [⟨0, ['g'], [], 1, false, []⟩, ⟨1, ['d'], [], 1, false, []⟩]
  edges := [(0, 1)]

/-- An occupied array row with columns [7, 9) taken (C6 scenario). -/
def arrC6 : MOSUsedArray where
  intvs := [⟨[((7, 9), (⟨0⟩, ⟨0⟩))]⟩]
  endFlags := []
  numCols := 9

/-- WireLookup with wires g and d for the C10 witness. -/
def wlC10 : WireLookup where
  data := [((['g'], 0), (4, 1)), ((['d'], 0), (6, 1))]
  ranges := [(['g'], (0, 0)), (['d'], (0, 0))]

/-- Example row info used in the C3 counterexample tiles. -/
def rowInfoEx : MOSRowInfo where
  lch := 36
  width := 4
  subWidth := 4
  rowType := .nch
  threshold := ['l']
  height := 100
  flip := false
  topExtInfo := ⟨.nch, ['l'], 0⟩
  botExtInfo := ⟨.nch, ['l'], 1⟩
  infoTag := 0
  gConnY := (0, 10)
  gmConnY := (0, 10)
  dsConnY := (20, 40)
  dsmConnY := (20, 40)
  dsgConnY := (10, 40)
  subConnY := (0, 40)
  guardRing := false
  guardRingCol := false
  doubleGate := false
  g2ConnY := (0, 0)
  g2mConnY := (0, 0)

/-- Example placed row for the C3 counterexample. -/
def rowPlaceEx : RowPlaceInfoF where
  rowInfo := rowInfoEx
  botWires := ⟨[], []⟩
  topWires := ⟨[], []⟩
  yb := 0
  yt := 120
  ybBlk := 10
  ytBlk := 110
  yConn := (10, 100)
  midWires := some ⟨[], []⟩

/-- Example array info for the C3 counterexample. -/
def arrInfoEx : MOSArrayPlaceInfoM where
  lch := 36
  connLayer := 1
  topLayer := 3
  halfSpace := true
  widthsTag := 5
  spacesTag := 6
  optionsTag := 7

/-- A tile whose wire_lookup table is nonempty (built with wire_specs). -/
def tileEx : MOSBasePlaceInfoF where
  name := ['t']
  arrInfo := arrInfoEx
  rpList := [rowPlaceEx]
  botMirror := true
  topMirror := true
  optionsTag := 3
  priority := 0
  wireLookup := [(4, wlC10)]

/-- The C3 counterexample table: one tile with a nonempty wire lookup. -/
def tableEx : TileInfoTableF where
  arrInfo := arrInfoEx
  pinfoDict := [(['t'], tileEx)]

/-- The same tile without a wire lookup (no wire_specs). -/
def tileExOk : MOSBasePlaceInfoF := { tileEx with wireLookup := [] }

/-- A table satisfying the amended C3 conditions. -/
def tableExOk : TileInfoTableF where
  arrInfo := arrInfoEx
  pinfoDict := [(['t'], tileExOk)]

/-- Trivial per-row wire oracle (no bottom wires, no line-end pressure). -/
def woTrivial : RowWireOracle where
  botBnd := []
  dy := fun _ _ => 0
  sharedConnY := coordMin
  topUpper := fun _ => 0
  connYB := fun y => (y, y)
  connYT := fun y => (y, y)

/-- Trivial technology oracle: every extension height is legal. -/
def techTrivial : TechOracle where
  blkHPitch := 2
  getExtWidthInfo := fun _ _ _ => ⟨[], 0, 1⟩

/-- Trivial conn-layer grid oracle. -/
def prGridTrivial : PRGrid where
  viaExtLow := fun _ => 0
  wireBoundsHi := fun t _ => t

/-- Unflipped row info of height 4 (C5 witness row 0). -/
def riC5a : MOSRowInfo := { rowInfoEx with height := 4, flip := false }

/-- Flipped row info of height 6 (C5 witness row 1). -/
def riC5b : MOSRowInfo := { rowInfoEx with height := 6, flip := true }

/-- Tile infos for the C8 scenario: both tiles require mirror placement on
every edge and share priority 0. -/
def pinfoC8a : PInfoM := ⟨true, true, 0, 0⟩

def pinfoC8b : PInfoM := ⟨true, true, 0, 1⟩

def dictC8 : List (List Char × PInfoM) := [(['a'], pinfoC8a), (['b'], pinfoC8b)]

/-- Abutting tile a top edge against tile b bottom edge. -/
def entryC8 : AbutEntry := ⟨['a'], 1, ['b'], 0, [], []⟩

/-- Oracle for the C8 counterexample: the two rows already clear each
other, no margin is needed. -/
def oracleC8zero : AbutOracle where
  abutInfo := fun _ _ _ _ _ _ => (0, ⟨[], 0, 1⟩, 4, 4)
  extend := fun tg m _ _ _ _ _ => .ok ⟨true, true, 0, tg + 100 + m.toNat⟩

/-- Oracle for the C8 amended witness: one unit of margin is needed. -/
def oracleC8one : AbutOracle where
  abutInfo := fun _ _ _ _ _ _ => (1, ⟨[], 0, 1⟩, 4, 4)
  extend := fun tg m _ _ _ _ _ => .ok ⟨true, true, 0, tg + 100 + m.toNat⟩

/-- Expected result of the C10 witness move: g pinned, d shifted by 3. -/
def wlC10res : WireLookup where
  data := [((['g'], 0), (4, 1)), ((['d'], 0), (9, 1))]
  ranges := wlC10.ranges

/-- Quality of one wire entry after a downward (up=False) move of
align_wires: shared wires are snapped to a boundary track (sinks to
upper, others to lower) and hardened; other wires sit at or above the
first track fitting their width at the lower coordinate. -/
def moveOK (g : WGraph) (tm : TrOracle) (lower upper : Int) (st : WSt) (k : Nat) : Prop :=
  ∀ n, g.find? k = some n →
    (n.shared = true →
      st k = ((if g.outDeg k == 0 then tm.grid.coordToTrack upper
        else tm.grid.coordToTrack lower), true)) ∧
    (n.shared = false →
      tm.grid.findNextGEh n.width lower ≤ (st k).1)

/-! ### Theorems -/

/-- C2: for every TilePatternElement, get_flip_unit(k) is
((k odd) AND mirror) XOR flip; a single-tile element reports
y0 = k * height and flip = get_flip_unit(k); a nested element divides by
the inner tile count, mirrors the inner index and reflects the recursive
Y offset when the outer repeat is flipped, and adds the outer offset. -/
theorem C2_flip_unit_and_tile_info :
    (∀ (e : TPElem) (k : Int),
      e.getFlipUnit k = (decide (Odd k) && e.mirror).xor e.flip) ∧
    (∀ (t : Tile) (m f : Bool) (mult k : Int),
      (TPElem.mk (.base t) m f mult).getTileInfo k =
        (t, k * t.height, (TPElem.mk (.base t) m f mult).getFlipUnit k)) ∧
    (∀ (xs : List TPElem) (m f : Bool) (mult k : Int),
      (TPElem.mk (.pat xs) m f mult).getTileInfo k =
        (let e := TPElem.mk (.pat xs) m f mult
         let n := patTiles xs
         let q := pydiv k n
         let r0 := pymod k n
         let fp := e.getFlipUnit q
         let r := if fp then n - 1 - r0 else r0
         let inner := patGetTileInfo xs r
         (inner.1,
           (if fp then patHeight xs - inner.2.1 - inner.1.height else inner.2.1) +
             q * patHeight xs,
           inner.2.2.xor fp))) := by
  refine ⟨?_, ?_, ?_⟩
  · intro e k
    have hm : pymod k 2 = k % 2 := Int.fmod_eq_emod k (by norm_num)
    have hd : ((k % 2 : Int) == 1) = decide (Odd k) := by
      rcases Int.even_or_odd k with he | ho
      · have h1 : k % 2 = 0 := Int.even_iff.mp he
        have h2 : ¬ Odd k := by simpa [Int.not_odd_iff_even] using he
        simp [h1, h2]
      · have h1 : k % 2 = 1 := Int.odd_iff.mp ho
        simp [h1, ho]
    rw [TPElem.getFlipUnit, hm, hd]
  · intro t m f mult k
    rw [TPElem.getTileInfo]
  · intro xs m f mult k
    rw [TPElem.getTileInfo]

/-- C4: the claimed inverse property of flat_row_to_tile_row fails on the
code.  In the two-tile nested pattern tpeAB, row 0 of tile 1 has flat row
index 2, but flat_row_to_tile_row(2) returns the element-local answer
(0, 0) instead of (1, 0): TilePattern.flat_row_to_tile_row forgets to add
the element tile offset. -/
theorem C4_flat_row_inverse_code_bug :
    tpeAB.getFlatRowIdxAndFlip 1 0 = (2, false) ∧
    tpeAB.flatRowToTileRow 2 = (0, 0) ∧
    ((0 : Int), (0 : Int)) ≠ ((1 : Int), (0 : Int)) := by
  refine ⟨?_, ?_, by decide⟩ <;>
    simp [tpeAB, tileA, tileB, TPElem.getFlatRowIdxAndFlip, TPElem.numTilesToRows,
      patNumTilesToRows, TPElem.getTileInfo, patGetTileInfo, TPElem.flatRowToTileRow,
      patFlatRowToTileRow, patElementIdx, bisectRight, ntileList, nrowList, dyList,
      cumList, cumListAux, patTiles, patRows, patHeight, TPElem.numTiles, TPElem.numRows,
      TPElem.height, TPInfo.unitTiles, TPInfo.unitRows, TPInfo.unitHeight,
      TPElem.getFlipUnit, TPElem.mirror, TPElem.flip, pydiv, pymod]

/-- C6: add_mos_raw computes the interval
[col - flip_lr * seg, col + (1 - flip_lr) * seg) and fails exactly when
that interval has a nonempty intersection with an interval already
recorded in the flat row; the array value passed in is returned
untouched in that case (the error is raised before any state is
built), so intv_iter re-queried on it yields the intervals it had. -/
theorem C6_add_mos_raw_overlap (a : MOSUsedArray) (row colIdx seg : Int)
    (flipTile flipLr flipUd : Bool) (left right : Option MOSEdgeInfo)
    (top bottom : BlkExtInfo) (useAbut : Bool) (abut : List MOSAbutInfo)
    (i : Fin a.intvs.length) (hrow : pyListIdx a.intvs.length row = some i) :
    ((∃ e ∈ (a.intvs.get i).entries, intvOverlap e.1 (getInterval colIdx seg flipLr) = true) ↔
      ∃ msg, a.addMosRaw row flipTile colIdx seg flipLr flipUd left right top bottom
        useAbut abut = .error msg) ∧
    (a.addMosRaw row flipTile colIdx seg flipLr flipUd left right top bottom
        useAbut abut = .error "Failed to add transistor" →
      a.intvIter row = (a.intvs.get i).entries.map (fun e => e.1)) := by
  constructor
  · unfold MOSUsedArray.addMosRaw
    rw [hrow]
    simp only [DisjRow.add]
    by_cases hov : (a.intvs.get i).entries.any
        (fun e => intvOverlap e.1 (getInterval colIdx seg flipLr)) = true
    · rw [if_pos hov]
      simp only [List.any_eq_true] at hov
      constructor
      · intro _
        exact ⟨"Failed to add transistor", rfl⟩
      · intro _
        obtain ⟨e, he, hoe⟩ := hov
        exact ⟨e, he, hoe⟩
    · rw [if_neg hov]
      constructor
      · intro ⟨e, he, hoe⟩
        exact absurd (List.any_eq_true.mpr ⟨e, he, hoe⟩) hov
      · intro ⟨msg, hmsg⟩
        simp at hmsg
  · intro _
    unfold MOSUsedArray.intvIter
    rw [hrow]

/-- Helper for C10: membership description of the shared set. -/
theorem mem_getSharedSet (shared : List (List Char)) (s : List (List Char × Int))
    (h : getSharedSet shared = .ok s) (b : List Char) (i : Int) :
    (b, i) ∈ s ↔ ∃ nm ∈ shared, nm = b ∧
      ∃ base idxs, parseCdbaName nm = .ok (base, idxs) ∧ i ∈ idxs := by
  induction shared generalizing s with
  | nil =>
    cases h
    simp
  | cons n rest ih =>
    unfold getSharedSet at h
    cases hp : parseCdbaName n with
    | error e => rw [hp] at h; cases h
    | ok v =>
      rw [hp] at h
      cases hr : getSharedSet rest with
      | error e => rw [hr] at h; cases h
      | ok srest =>
        rw [hr] at h
        cases h
        simp only [List.mem_append, List.mem_map, List.mem_cons]
        constructor
        · rintro (⟨j, hj, hadd⟩ | hmem)
          · injection hadd with h1 h2
            subst h1
            subst h2
            exact ⟨n, Or.inl rfl, rfl, v.1, v.2, by rw [hp], hj⟩
          · obtain ⟨nm, hnm, hb, base, idxs, hpar, hi⟩ := (ih srest hr).mp hmem
            exact ⟨nm, Or.inr hnm, hb, base, idxs, hpar, hi⟩
        · rintro ⟨nm, hnm | hnm, hb, base, idxs, hpar, hi⟩
          · subst hnm
            rw [hp] at hpar
            cases hpar
            subst hb
            exact Or.inl ⟨i, hi, rfl⟩
          · exact Or.inr ((ih srest hr).mpr ⟨nm, hnm, hb, base, idxs, hpar, hi⟩)

/-- Helper for C10: a bracket-free name has no index of an opening
bracket. -/
theorem findIdxLtNone (nm : List Char) (hnb : nm.contains '<' = false) :
    nm.findIdx? (fun ch => ch = '<') = none := by
  induction nm with
  | nil => rfl
  | cons c rest ih =>
    rw [List.contains_cons, Bool.or_eq_false_iff] at hnb
    have hc : ('<' == c) = false := hnb.1
    have hcc : (decide (c = '<')) = false :=
      decide_eq_false (fun hx => by simp [hx] at hc)
    rw [List.findIdx?_cons, hcc]
    simp [ih hnb.2]

/-- Helper for C10: a name without an opening bracket parses to the
singleton index list [0]. -/
theorem parse_bracketless (nm : List Char) (base : List Char) (idxs : List Int)
    (hnb : nm.contains '<' = false) (h : parseCdbaName nm = .ok (base, idxs)) :
    base = nm ∧ idxs = [0] := by
  cases hl : nm.getLast? with
  | none => simp [parseCdbaName, hl] at h
  | some c =>
    by_cases hgt : c = '>'
    · subst hgt
      simp [parseCdbaName, hl, findIdxLtNone nm hnb] at h
    · by_cases hcol : nm.contains ':' = true
      · simp only [parseCdbaName, hl] at h
        rw [if_neg hgt] at h
        rw [hnb, hcol] at h
        simp at h
      · rw [Bool.not_eq_true] at hcol
        simp only [parseCdbaName, hl] at h
        rw [if_neg hgt] at h
        rw [hnb, hcol] at h
        simp only [Bool.or_self, Bool.false_eq_true, if_false, Except.ok.injEq,
          Prod.mk.injEq] at h
        refine ⟨h.1.symm, ?_⟩
        rw [← h.2]
        decide

/-- C10: get_move keeps the key set and widths, pins exactly the entries
whose key (basename, index) is matched by a shared name that literally
equals the basename and whose parsed index list contains the index, and
shifts every other entry by exactly the given amount; a key whose
basename has no bracket can only be pinned at index 0. -/
theorem C10_wire_lookup_get_move (w : WireLookup) (t : Int)
    (shared : List (List Char)) (res : WireLookup)
    (h : w.getMove t shared = .ok res) :
    ∃ s, getSharedSet shared = .ok s ∧
      res.data = w.data.map (fun kv =>
        if s.contains kv.1 then kv else (kv.1, (kv.2.1 + t, kv.2.2))) ∧
      res.data.map (fun kv => kv.1) = w.data.map (fun kv => kv.1) ∧
      (∀ b i, (b, i) ∈ s ↔ ∃ nm ∈ shared, nm = b ∧
        ∃ base idxs, parseCdbaName nm = .ok (base, idxs) ∧ i ∈ idxs) ∧
      (∀ b i, b.contains '<' = false → (b, i) ∈ s → i = 0) := by
  unfold WireLookup.getMove at h
  cases hs : getSharedSet shared with
  | error e => rw [hs] at h; cases h
  | ok s =>
    rw [hs] at h
    cases h
    refine ⟨s, rfl, rfl, ?_, mem_getSharedSet shared s hs, ?_⟩
    · simp only [List.map_map]
      apply List.map_congr_left
      intro kv _
      simp only [Function.comp]
      by_cases hq : s.contains kv.1 = true
      · rw [if_pos hq]
      · rw [if_neg hq]
    · intro b i hnb hmem
      obtain ⟨nm, _, hb, base, idxs, hpar, hi⟩ := (mem_getSharedSet shared s hs b i).mp hmem
      subst hb
      obtain ⟨_, hidx⟩ := parse_bracketless nm base idxs hnb hpar
      rw [hidx] at hi
      simpa using hi

/-- Witness for C10: pinning the un-bracketed shared name g at shift 3
keeps g at 4 and moves d from 6 to 9. -/
theorem C10_wire_lookup_get_move_witness :
    wlC10.getMove 3 [['g']] = .ok wlC10res ∧
    (∃ s, getSharedSet [['g']] = .ok s ∧
      wlC10res.data = wlC10.data.map (fun kv =>
        if s.contains kv.1 then kv else (kv.1, (kv.2.1 + 3, kv.2.2))) ∧
      wlC10res.data.map (fun kv => kv.1) = wlC10.data.map (fun kv => kv.1) ∧
      (∀ b i, (b, i) ∈ s ↔ ∃ nm ∈ [['g']], nm = b ∧
        ∃ base idxs, parseCdbaName nm = .ok (base, idxs) ∧ i ∈ idxs) ∧
      (∀ b i, b.contains '<' = false → (b, i) ∈ s → i = 0)) :=
  ⟨by rfl, C10_wire_lookup_get_move wlC10 3 [['g']] wlC10res (by rfl)⟩

/-- Witness for C6: adding columns [5, 10) to a row where [7, 9) is
occupied fails with an overlap error, and intv_iter on the array still
reports [7, 9). -/
theorem C6_add_mos_raw_overlap_witness :
    (∃ e ∈ (arrC6.intvs.get ⟨0, by decide⟩).entries,
      intvOverlap e.1 (getInterval 5 5 false) = true) ∧
    (∃ msg, arrC6.addMosRaw 0 false 5 5 false false none none ⟨0⟩ ⟨0⟩ false []
      = .error msg) ∧
    arrC6.intvIter 0 = [(7, 9)] := by
  have hov : ∃ e ∈ (arrC6.intvs.get ⟨0, by decide⟩).entries,
      intvOverlap e.1 (getInterval 5 5 false) = true :=
    ⟨((7, 9), (⟨0⟩, ⟨0⟩)), by decide, by decide⟩
  have h := C6_add_mos_raw_overlap arrC6 0 5 5 false false false none none ⟨0⟩ ⟨0⟩
    false [] ⟨0, by decide⟩ (by decide)
  exact ⟨hov, h.1.mp hov, by decide⟩

/-- C9: faithful evaluation of place_compact on a bottom-mirror
configuration with two non-shared source wires at indices 3 and 1 (doubled
6 and 2) whose pair violates the same-color separation of 5.5 tracks
(doubled 11): the source reads idx_j from attrs_i, tests 3+3+1 against
5.5, finds no violation and returns normally instead of raising. -/
theorem C9_self_mirror_check_misses_violation :
    ∃ m lo up, placeCompact gC9 [0, 1] trC9 0 true false 0 none [] none
      = .ok (m, lo, up) ∧
    m 0 = 6 ∧ m 1 = 2 ∧ m 0 + m 1 + 2 < trC9.getSep ['g'] ['d'] true true := by
  refine ⟨_, _, _, rfl, by decide, by decide, by decide⟩

/-- C7 counterexample: align_wires on the chain 0 -> 1 with a single
LOWER_COMPACT group and bounds lower = upper = 0 leaves wire 1 on a track
whose coordinate 2 lies outside [0, 0]. -/
theorem C7_align_wires_exceeds_upper :
    ((alignWires gC7 [⟨[0, 1], .lowerCompact⟩] sepTr 0 0 none (fun _ => (0, false))) 1).1
      = 2 ∧
    sepTr.grid.trackToCoord 2 > 0 := by decide

/-- C8 counterexample: an abut entry joining two tiles that both require
mirror placement at the shared edge and share extend priority 0 is
processed without error when the computed abutment margin is zero. -/
theorem C8_tie_without_margin_no_error :
    pinfoC8a.getMirror true = pinfoC8b.getMirror false ∧
    pinfoC8a.priority = pinfoC8b.priority ∧
    makeTilesAbut oracleC8zero dictC8 [entryC8] = .ok dictC8 :=
  ⟨by decide, by decide, by rfl⟩

/-- C8 amended: when the abut margin is positive and both mirror
constraints agree and the extend priorities are tied, make_tiles raises
the configuration-mismatch error instead of picking a tile. -/
theorem C8_tie_with_margin_raises (dict : List (List Char × PInfoM)) (oracle : AbutOracle)
    (entry : AbutEntry) (p1 p2 : PInfoM)
    (h1 : dictLookupP dict entry.name1 = some p1)
    (h2 : dictLookupP dict entry.name2 = some p2)
    (hm : (oracle.abutInfo p1.tag (entry.edgeCode1 != 0) p2.tag (entry.edgeCode2 != 0)
      entry.shared1 entry.shared2).1 > 0)
    (hmir : p1.getMirror (entry.edgeCode1 != 0) = p2.getMirror (entry.edgeCode2 != 0))
    (hp : p1.priority = p2.priority) :
    makeTilesAbut oracle dict [entry] =
      .error "Cannot decide whether to extend tile, please set the priority property." := by
  unfold makeTilesAbut makeTilesAbutLoop
  rw [h1, h2]
  simp [hm, hmir, hp]

/-- Witness for the amended C8: concrete tiles a and b, both mirrored at
the abutting edges, both priority 0, margin 1: the error is raised. -/
theorem C8_tie_with_margin_raises_witness :
    makeTilesAbut oracleC8one dictC8 [entryC8] =
      .error "Cannot decide whether to extend tile, please set the priority property." :=
  C8_tie_with_margin_raises dictC8 oracleC8one entryC8 pinfoC8a pinfoC8b (by decide)
    (by decide) (by decide) (by decide) (by decide)

/-- C3 support: a row info whose guard_ring_col flag is off round trips
through to_dict / from_dict. -/
theorem rowinfo_round_trip (ri : MOSRowInfo) (hg : ri.guardRingCol = false) :
    rowInfoFromDict ri.toDict = ri := by
  cases ri
  simp_all [MOSRowInfo.toDict, rowInfoFromDict]

/-- C3 support: a placed row with its guard_ring_col flag off compares
equal (and hashes equal) after the to_dict / from_dict round trip. -/
theorem rowplace_round_trip (r : RowPlaceInfoF) (s : SavedRowPlaceInfo)
    (h : r.toDict = .ok s) (hg : r.rowInfo.guardRingCol = false) :
    rowPlaceInfoBEq (rowPlaceInfoFromDict s) r = true ∧
    rowPlaceInfoHashFields (rowPlaceInfoFromDict s) = rowPlaceInfoHashFields r := by
  unfold RowPlaceInfoF.toDict at h
  cases hm : r.midWires with
  | none =>
    rw [hm] at h
    exact absurd h (by simp)
  | some mw =>
    rw [hm] at h
    cases h
    constructor
    · unfold rowPlaceInfoBEq rowPlaceInfoFromDict
      simp [rowinfo_round_trip r.rowInfo hg, wireLookupBEq, WireLookup.fromDict,
        WireLookup.toDict, hm]
    · unfold rowPlaceInfoHashFields rowPlaceInfoFromDict
      simp [rowinfo_round_trip r.rowInfo hg, WireLookup.fromDict, WireLookup.toDict, hm]

/-- C3 support: pointwise description of a successful exceptMapList. -/
theorem exceptMapList_ok (f : α → Except String β) (xs : List α) (ys : List β)
    (h : exceptMapList f xs = .ok ys) :
    ys.length = xs.length ∧ ∀ i (h1 : i < ys.length) (h2 : i < xs.length),
      f (xs.get ⟨i, h2⟩) = .ok (ys.get ⟨i, h1⟩) := by
  induction xs generalizing ys with
  | nil =>
    unfold exceptMapList at h
    cases h
    exact ⟨rfl, fun i h1 h2 => absurd h2 (by simp)⟩
  | cons a r ih =>
    unfold exceptMapList at h
    cases hf : f a with
    | error e => rw [hf] at h; cases h
    | ok b =>
      rw [hf] at h
      cases hr : exceptMapList f r with
      | error e => rw [hr] at h; cases h
      | ok bs =>
        rw [hr] at h
        cases h
        obtain ⟨hlen, hpt⟩ := ih bs hr
        refine ⟨by simp [hlen], ?_⟩
        intro i h1 h2
        cases i with
        | zero => simpa using hf
        | succ j =>
          have := hpt j (by simpa using h1) (by simpa using h2)
          simpa using this

/-- C3 support: a zip-all test follows from a pointwise property. -/
theorem zip_all_of_pointwise (f : α → β → Bool) (xs : List α) (ys : List β)
    (hp : ∀ i (h1 : i < xs.length) (h2 : i < ys.length),
      f (xs.get ⟨i, h1⟩) (ys.get ⟨i, h2⟩) = true) :
    (List.zip xs ys).all (fun p => f p.1 p.2) = true := by
  induction xs generalizing ys with
  | nil => simp
  | cons a r ih =>
    cases ys with
    | nil => simp
    | cons b s =>
      simp only [List.zip_cons_cons, List.all_cons, Bool.and_eq_true]
      refine ⟨hp 0 (by simp) (by simp), ih s ?_⟩
      intro i h1 h2
      exact hp (i + 1) (by simpa using h1) (by simpa using h2)

/-- C3 support: a list equality from lengths and pointwise equality. -/
theorem list_eq_of_pointwise (xs ys : List α) (hlen : xs.length = ys.length)
    (hp : ∀ i (h1 : i < xs.length) (h2 : i < ys.length),
      xs.get ⟨i, h1⟩ = ys.get ⟨i, h2⟩) : xs = ys := by
  apply List.ext_get hlen
  intro i h1 h2
  simpa using hp i h1 h2

/-- C3 support: a tile with empty wire lookup and guard_ring_col off on
every row compares equal (and hashes equal) after save / load. -/
theorem pinfo_round_trip (p : MOSBasePlaceInfoF) (sp : SavedPlaceInfo) (nm : List Char)
    (hs : savePlaceInfo p = .ok sp)
    (hg : ∀ r ∈ p.rpList, r.rowInfo.guardRingCol = false)
    (hw : p.wireLookup = [])
    (hn : p.name = nm) :
    basePInfoBEq (loadPlaceInfo p.arrInfo nm sp) p = true ∧
    basePInfoHashFields (loadPlaceInfo p.arrInfo nm sp) = basePInfoHashFields p := by
  unfold savePlaceInfo at hs
  cases hml : exceptMapList RowPlaceInfoF.toDict p.rpList with
  | error e => rw [hml] at hs; cases hs
  | ok rp =>
    rw [hml] at hs
    cases hs
    obtain ⟨hlen, hpt⟩ := exceptMapList_ok RowPlaceInfoF.toDict p.rpList rp hml
    have hmaplen : (rp.map rowPlaceInfoFromDict).length = p.rpList.length := by
      simpa using hlen
    have hrowpt : ∀ i (h1 : i < (rp.map rowPlaceInfoFromDict).length)
        (h2 : i < p.rpList.length),
        rowPlaceInfoBEq ((rp.map rowPlaceInfoFromDict).get ⟨i, h1⟩)
          (p.rpList.get ⟨i, h2⟩) = true ∧
        rowPlaceInfoHashFields ((rp.map rowPlaceInfoFromDict).get ⟨i, h1⟩) =
          rowPlaceInfoHashFields (p.rpList.get ⟨i, h2⟩) := by
      intro i h1 h2
      have hget : (rp.map rowPlaceInfoFromDict).get ⟨i, h1⟩ =
          rowPlaceInfoFromDict (rp.get ⟨i, by simpa using h1⟩) := by
        simp
      rw [hget]
      exact rowplace_round_trip (p.rpList.get ⟨i, h2⟩) (rp.get ⟨i, by simpa using h1⟩)
        (hpt i (by simpa using h1) h2) (hg _ (p.rpList.get_mem _ _))
    have hmap : (rp.map rowPlaceInfoFromDict).map rowPlaceInfoHashFields =
        p.rpList.map rowPlaceInfoHashFields := by
      apply list_eq_of_pointwise
      · simpa using hmaplen
      · intro i h1 h2
        have h1x : i < (rp.map rowPlaceInfoFromDict).length := by simpa using h1
        have h2x : i < p.rpList.length := by simpa using h2
        have := (hrowpt i h1x h2x).2
        simpa using this
    constructor
    · unfold basePInfoBEq loadPlaceInfo
      simp only [hw, Bool.and_eq_true]
      refine ⟨⟨⟨⟨⟨⟨?_, ?_⟩, ?_⟩, ?_⟩, ?_⟩, ?_⟩, ?_⟩
      · simp [hn]
      · simp
      · simpa using hmaplen
      · exact zip_all_of_pointwise _ _ _ (fun i h1 h2 => (hrowpt i h1 h2).1)
      · simp
      · simp
      · simp
    · unfold basePInfoHashFields loadPlaceInfo
      simp [hn, hmap]

/-- C3 support: with pairwise distinct keys, find? at the i-th key
returns the i-th entry. -/
theorem find_key_at (tiles : List (List Char × SavedPlaceInfo)) (i : Nat)
    (hi : i < tiles.length) (hnd : (tiles.map (fun e => e.1)).Nodup) :
    tiles.find? (fun e => e.1 == (tiles.get ⟨i, hi⟩).1) = some (tiles.get ⟨i, hi⟩) := by
  induction tiles generalizing i with
  | nil => exact absurd hi (by simp)
  | cons a rest ih =>
    simp only [List.map_cons, List.nodup_cons] at hnd
    cases i with
    | zero => simp [List.find?]
    | succ j =>
      have hj : j < rest.length := by simpa using hi
      have hget : (a :: rest).get ⟨j + 1, hi⟩ = rest.get ⟨j, hj⟩ := rfl
      rw [hget]
      have hne : (a.1 == (rest.get ⟨j, hj⟩).1) = false := by
        have hmem : (rest.get ⟨j, hj⟩).1 ∈ rest.map (fun e => e.1) :=
          List.mem_map_of_mem _ (rest.get_mem _ _)
        have : a.1 ≠ (rest.get ⟨j, hj⟩).1 := by
          intro hx
          exact hnd.1 (hx ▸ hmem)
        simpa using this
      rw [List.find?_cons, hne]
      exact ih j hj hnd.2

/-- C3 support: pointwise description of a successful loadTiles run. -/
theorem loadTiles_ok (ainfo : MOSArrayPlaceInfoM)
    (tiles : List (List Char × SavedPlaceInfo)) (names : List (List Char))
    (d2 : List (List Char × MOSBasePlaceInfoF))
    (h : loadTiles ainfo tiles names = .ok d2) :
    d2.length = names.length ∧
    ∀ i (h1 : i < d2.length) (h2 : i < names.length),
      ∃ e, tiles.find? (fun x => x.1 == names.get ⟨i, h2⟩) = some e ∧
        d2.get ⟨i, h1⟩ = (names.get ⟨i, h2⟩, loadPlaceInfo ainfo (names.get ⟨i, h2⟩) e.2) := by
  induction names generalizing d2 with
  | nil =>
    unfold loadTiles at h
    cases h
    exact ⟨rfl, fun i h1 h2 => absurd h2 (by simp)⟩
  | cons nm rest ih =>
    unfold loadTiles at h
    by_cases harr : (nm == arrInfoName) = true
    · rw [if_pos harr] at h; cases h
    · rw [if_neg harr] at h
      cases hf : tiles.find? (fun e => e.1 == nm) with
      | none => rw [hf] at h; cases h
      | some e =>
        rw [hf] at h
        cases hrec : loadTiles ainfo tiles rest with
        | error msg => rw [hrec] at h; cases h
        | ok tail =>
          rw [hrec] at h
          cases h
          obtain ⟨hlen, hpt⟩ := ih tail hrec
          refine ⟨by simp [hlen], ?_⟩
          intro i h1 h2
          cases i with
          | zero => refine ⟨e, hf, rfl⟩
          | succ j =>
            have := hpt j (by simpa using h1) (by simpa using h2)
            simpa using this

/-- C3 amended: for a tile table whose tiles carry empty wire-lookup
tables, whose rows all round trip (guard_ring_col off), whose dict keys
are the tile names, pairwise distinct and none equal to arr_info, saving
and then loading with the same name list yields an equal array info with
equal hash fields, and tile by tile an ==-equal MOSBasePlaceInfo with
equal hash fields. -/
theorem C3_round_trip_amended (t : TileInfoTableF) (dir : SavedTileDir)
    (t2 : TileInfoTableF)
    (hwl : ∀ e ∈ t.pinfoDict, e.2.wireLookup = [])
    (hgr : ∀ e ∈ t.pinfoDict, ∀ r ∈ e.2.rpList, r.rowInfo.guardRingCol = false)
    (hname : ∀ e ∈ t.pinfoDict, e.2.name = e.1)
    (harr : ∀ e ∈ t.pinfoDict, e.2.arrInfo = t.arrInfo)
    (hnd : (t.pinfoDict.map (fun e => e.1)).Nodup)
    (hsave : t.save = .ok dir)
    (hload : tileTableLoad (t.pinfoDict.map (fun e => e.1)) dir = .ok t2) :
    t2.arrInfo = t.arrInfo ∧
    arrInfoHashFields t2.arrInfo = arrInfoHashFields t.arrInfo ∧
    t2.pinfoDict.length = t.pinfoDict.length ∧
    ∀ i (h1 : i < t2.pinfoDict.length) (h2 : i < t.pinfoDict.length),
      (t2.pinfoDict.get ⟨i, h1⟩).1 = (t.pinfoDict.get ⟨i, h2⟩).1 ∧
      basePInfoBEq (t2.pinfoDict.get ⟨i, h1⟩).2 (t.pinfoDict.get ⟨i, h2⟩).2 = true ∧
      basePInfoHashFields (t2.pinfoDict.get ⟨i, h1⟩).2 =
        basePInfoHashFields (t.pinfoDict.get ⟨i, h2⟩).2 := by
  unfold TileInfoTableF.save at hsave
  cases hmt : exceptMapList (fun e => (savePlaceInfo e.2).map (fun s => (e.1, s)))
      t.pinfoDict with
  | error e => rw [hmt] at hsave; cases hsave
  | ok tiles =>
    rw [hmt] at hsave
    cases hsave
    obtain ⟨htlen, htpt⟩ := exceptMapList_ok _ t.pinfoDict tiles hmt
    unfold tileTableLoad at hload
    dsimp only at hload
    have hainfo : makeArrayInfo (saveArrInfo t.arrInfo) = t.arrInfo := rfl
    cases hlt : loadTiles (makeArrayInfo (saveArrInfo t.arrInfo)) tiles
        (t.pinfoDict.map (fun e => e.1)) with
    | error e =>
      rw [hlt] at hload
      cases hload
    | ok d2 =>
      rw [hlt] at hload
      cases hload
      obtain ⟨hdlen, hdpt⟩ := loadTiles_ok _ tiles _ d2 hlt
      have hkeys : ∀ i (hi : i < tiles.length) (hi2 : i < t.pinfoDict.length),
          (tiles.get ⟨i, hi⟩).1 = (t.pinfoDict.get ⟨i, hi2⟩).1 ∧
          savePlaceInfo (t.pinfoDict.get ⟨i, hi2⟩).2 = .ok (tiles.get ⟨i, hi⟩).2 := by
        intro i hi hi2
        have hthis := htpt i hi hi2
        cases hsp : savePlaceInfo (t.pinfoDict.get ⟨i, hi2⟩).2 with
        | error e => rw [hsp] at hthis; cases hthis
        | ok sp =>
          rw [hsp] at hthis
          simp only [Except.map] at hthis
          have hx := (Except.ok.inj hthis).symm
          constructor
          · rw [hx]
          · rw [hx]
      have htkeys : tiles.map (fun e => e.1) = t.pinfoDict.map (fun e => e.1) := by
        apply list_eq_of_pointwise
        · simp [htlen]
        · intro i h1 h2
          have h1x : i < tiles.length := by simpa using h1
          have h2x : i < t.pinfoDict.length := by simpa using h2
          simp only [List.get_map]
          exact (hkeys i h1x h2x).1
      refine ⟨rfl, rfl, by simpa [hdlen] using htlen.symm, ?_⟩
      intro i h1 h2
      have hi2 : i < (t.pinfoDict.map (fun e => e.1)).length := by simpa using h2
      obtain ⟨e, hfind, hget⟩ := hdpt i h1 hi2
      have hnmi : (t.pinfoDict.map (fun e => e.1)).get ⟨i, hi2⟩ =
          (t.pinfoDict.get ⟨i, h2⟩).1 := by simp
      have hit : i < tiles.length := by omega
      have htile := hkeys i hit h2
      have hfind2 : tiles.find? (fun x => x.1 == (tiles.get ⟨i, hit⟩).1) =
          some (tiles.get ⟨i, hit⟩) := by
        apply find_key_at
        rw [htkeys]
        exact hnd
      have hkey1 : (tiles.get ⟨i, hit⟩).1 = (t.pinfoDict.get ⟨i, h2⟩).1 := htile.1
      have he : e = tiles.get ⟨i, hit⟩ := by
        rw [hnmi] at hfind
        rw [← hkey1] at hfind
        rw [hfind2] at hfind
        cases hfind
        rfl
      subst he
      have hload2 := hget
      rw [hnmi] at hload2
      have hrt := pinfo_round_trip (t.pinfoDict.get ⟨i, h2⟩).2 (tiles.get ⟨i, hit⟩).2
        (t.pinfoDict.get ⟨i, h2⟩).1 htile.2
        (fun r hr => hgr _ (t.pinfoDict.get_mem _ _) r hr)
        (hwl _ (t.pinfoDict.get_mem _ _))
        (hname _ (t.pinfoDict.get_mem _ _))
      rw [harr _ (t.pinfoDict.get_mem _ _)] at hrt
      refine ⟨?_, ?_, ?_⟩
      · rw [hload2]
      · rw [hload2]
        exact hrt.1
      · rw [hload2]
        exact hrt.2

/-- C3 counterexample: the round trip is not equality-preserving for
every valid TileInfoTable: a tile built with wire_specs carries a
nonempty wire_lookup, which load never reconstructs, so the reloaded
tile compares unequal. -/
theorem C3_round_trip_loses_wire_lookup :
    ∃ dir t2, tableEx.save = .ok dir ∧
      tileTableLoad [['t']] dir = .ok t2 ∧
      t2.arrInfo = tableEx.arrInfo ∧
      ∃ p2, t2.pinfoDict = [(['t'], p2)] ∧ basePInfoBEq p2 tileEx = false := by
  refine ⟨_, _, rfl, rfl, rfl, _, rfl, rfl⟩

/-- Witness for the amended C3: the one-tile table without wire_specs
saves and reloads to an ==-equal, hash-equal table. -/
theorem C3_round_trip_amended_witness :
    ∃ dir t2, tableExOk.save = .ok dir ∧
      tileTableLoad (tableExOk.pinfoDict.map (fun e => e.1)) dir = .ok t2 ∧
      (t2.arrInfo = tableExOk.arrInfo ∧
       arrInfoHashFields t2.arrInfo = arrInfoHashFields tableExOk.arrInfo ∧
       t2.pinfoDict.length = tableExOk.pinfoDict.length ∧
       ∀ i (h1 : i < t2.pinfoDict.length) (h2 : i < tableExOk.pinfoDict.length),
         (t2.pinfoDict.get ⟨i, h1⟩).1 = (tableExOk.pinfoDict.get ⟨i, h2⟩).1 ∧
         basePInfoBEq (t2.pinfoDict.get ⟨i, h1⟩).2
           (tableExOk.pinfoDict.get ⟨i, h2⟩).2 = true ∧
         basePInfoHashFields (t2.pinfoDict.get ⟨i, h1⟩).2 =
           basePInfoHashFields (tableExOk.pinfoDict.get ⟨i, h2⟩).2) := by
  refine ⟨_, _, rfl, rfl, ?_⟩
  exact C3_round_trip_amended tableExOk _ _ (by decide) (by decide) (by decide)
    (by decide) (by decide) rfl rfl

/-! ### C5 support: bisect and extension-width lemmas -/

theorem bisectLeft_le_length (l : List Int) (x : Int) : bisectLeft l x ≤ l.length :=
  List.countP_le_length _

theorem getD_mem_of_lt (l : List Int) (i : Nat) (h : i < l.length) : l.getD i 0 ∈ l := by
  rw [List.getD_eq_getElem l 0 h]
  exact List.getElem_mem h

theorem bisectLeft_ge_of_sorted (l : List Int) (hs : l.Sorted (fun a b => a < b)) (w : Int)
    (h : bisectLeft l w < l.length) : w ≤ l.getD (bisectLeft l w) 0 := by
  induction l with
  | nil => simp at h
  | cons x r ih =>
    rw [List.sorted_cons] at hs
    by_cases hxw : x < w
    · have hcp : bisectLeft (x :: r) w = bisectLeft r w + 1 := by
        simp [bisectLeft, List.countP_cons, hxw]
      rw [hcp] at h ⊢
      simp only [List.getD_cons_succ]
      exact ih hs.2 (by simpa using h)
    · have hz : bisectLeft (x :: r) w = 0 := by
        have hall : ∀ a ∈ x :: r, ¬((fun y => decide (y < w)) a = true) := by
          intro a ha
          simp only [decide_eq_true_eq]
          rcases List.mem_cons.mp ha with h1 | h1
          · omega
          · have := hs.1 a h1
            omega
        simp [bisectLeft, List.countP_eq_zero.mpr hall]
      rw [hz]
      simp only [List.getD_cons_zero]
      omega

theorem bisectLeft_min_of_sorted (l : List Int) (hs : l.Sorted (fun a b => a < b)) (w b : Int)
    (hb : b ∈ l) (hwb : w ≤ b) :
    bisectLeft l w < l.length ∧ l.getD (bisectLeft l w) 0 ≤ b := by
  induction l with
  | nil => simp at hb
  | cons x r ih =>
    rw [List.sorted_cons] at hs
    by_cases hxw : x < w
    · have hcp : bisectLeft (x :: r) w = bisectLeft r w + 1 := by
        simp [bisectLeft, List.countP_cons, hxw]
      have hbr : b ∈ r := by
        rcases List.mem_cons.mp hb with h1 | h1
        · omega
        · exact h1
      have := ih hs.2 hbr
      rw [hcp]
      simp only [List.getD_cons_succ, List.length_cons]
      exact ⟨by omega, this.2⟩
    · have hz : bisectLeft (x :: r) w = 0 := by
        have hall : ∀ a ∈ x :: r, ¬((fun y => decide (y < w)) a = true) := by
          intro a ha
          simp only [decide_eq_true_eq]
          rcases List.mem_cons.mp ha with h1 | h1
          · omega
          · have := hs.1 a h1
            omega
        simp [bisectLeft, List.countP_eq_zero.mpr hall]
      rw [hz]
      simp only [List.getD_cons_zero, List.length_cons]
      constructor
      · omega
      · rcases List.mem_cons.mp hb with h1 | h1
        · omega
        · exact le_of_lt (hs.1 b h1)

theorem bisectLeft_mem_of_sorted (l : List Int) (hs : l.Sorted (fun a b => a < b)) (b : Int)
    (hb : b ∈ l) : bisectLeft l b < l.length ∧ l.getD (bisectLeft l b) 0 = b := by
  have h1 := bisectLeft_min_of_sorted l hs b b hb le_rfl
  exact ⟨h1.1, le_antisymm h1.2 (bisectLeft_ge_of_sorted l hs b h1.1)⟩
theorem nextFromMin_spec (e : ExtWidthInfo) (hstep : 0 < e.step) (w a : Int)
    (hw : e.wmin ≤ w) (h : e.nextFromMin w false = .ok a) :
    e.isValid a = true ∧ w ≤ a ∧ ∀ b, e.isValid b = true → w ≤ b → a ≤ b := by
  unfold ExtWidthInfo.nextFromMin at h
  simp only [Bool.false_and, Bool.false_eq_true, if_false, Except.ok.injEq] at h
  subst h
  have hstep0 : e.step ≠ 0 := ne_of_gt hstep
  have hf1 : pydiv (w - e.wmin) e.step = (w - e.wmin) / e.step := by
    unfold pydiv
    exact Int.fdiv_eq_ediv _ (le_of_lt hstep)
  have hf2 : pymod (w - e.wmin) e.step = (w - e.wmin) % e.step := by
    unfold pymod
    exact Int.fmod_eq_emod _ (le_of_lt hstep)
  set q := (w - e.wmin) / e.step with hq
  set r := (w - e.wmin) % e.step with hr
  rw [hf1, hf2]
  have hqr : e.step * q + r = w - e.wmin := Int.ediv_add_emod _ _
  have hr0 : 0 ≤ r := Int.emod_nonneg _ hstep0
  have hrs : r < e.step := Int.emod_lt_of_pos _ hstep
  have hq0 : 0 ≤ q := Int.ediv_nonneg (by omega) (le_of_lt hstep)
  set i : Int := if r ≠ 0 then 1 else 0 with hi
  have hi0 : 0 ≤ i := by
    rw [hi]
    split <;> omega
  have hle : w ≤ e.wmin + (q + i) * e.step := by
    have hc : (q + i) * e.step = e.step * q + e.step * i := by ring
    rw [hc, hi]
    split
    · linarith [hqr, hrs, mul_one e.step]
    · rename_i hreq
      push_neg at hreq
      linarith [hqr, mul_zero e.step]
  refine ⟨?_, hle, ?_⟩
  · unfold ExtWidthInfo.isValid
    rw [if_pos (by nlinarith)]
    simp only [add_sub_cancel_left, beq_iff_eq]
    unfold pymod
    rw [Int.fmod_eq_emod _ (le_of_lt hstep), Int.mul_emod_left]
  · intro b hb hwb
    have hbmin : e.wmin ≤ b := le_trans hw hwb
    unfold ExtWidthInfo.isValid at hb
    rw [if_pos hbmin] at hb
    simp only [beq_iff_eq] at hb
    unfold pymod at hb
    rw [Int.fmod_eq_emod _ (le_of_lt hstep)] at hb
    obtain ⟨k, hk⟩ := Int.dvd_of_emod_eq_zero hb
    have h2 : e.step * q + r ≤ e.step * k := by
      calc e.step * q + r = w - e.wmin := hqr
        _ ≤ b - e.wmin := by omega
        _ = e.step * k := hk
    have hkq : q + i ≤ k := by
      rw [hi]
      split
      · rename_i hrne
        have hrpos : 0 < r := lt_of_le_of_ne hr0 (Ne.symm hrne)
        by_contra hcon
        push_neg at hcon
        have hk_le : k ≤ q := by omega
        have h1 : e.step * k ≤ e.step * q :=
          mul_le_mul_of_nonneg_left hk_le (le_of_lt hstep)
        linarith
      · rename_i hreq
        push_neg at hreq
        have h3 : e.step * q ≤ e.step * k := by omega
        have := Int.le_of_mul_le_mul_left h3 hstep
        omega
    have h4 : e.step * (q + i) ≤ e.step * k :=
      mul_le_mul_of_nonneg_left hkq (le_of_lt hstep)
    linarith [h4, hk, mul_comm (q + i) e.step]

theorem getNextWidth_min (e : ExtWidthInfo) (hstep : 0 < e.step)
    (hs : e.discreteWidths.Sorted (fun x y => x < y))
    (hd : ∀ d ∈ e.discreteWidths, d < e.wmin)
    (w a : Int) (h : e.getNextWidth w false = .ok a) :
    e.isValid a = true ∧ w ≤ a ∧ ∀ b, e.isValid b = true → w ≤ b → a ≤ b := by
  unfold ExtWidthInfo.getNextWidth at h
  by_cases hw : e.wmin ≤ w
  · rw [if_pos (by exact hw)] at h
    exact nextFromMin_spec e hstep w a hw h
  · push_neg at hw
    rw [if_neg (by omega)] at h
    simp only [Bool.false_eq_true, if_false] at h
    by_cases hidx : bisectLeft e.discreteWidths w = e.discreteWidths.length
    · rw [if_pos (by simp [hidx])] at h
      simp only [Except.ok.injEq] at h
      subst h
      have hvmin : e.isValid e.wmin = true := by
        unfold ExtWidthInfo.isValid
        rw [if_pos le_rfl]
        simp only [sub_self, beq_iff_eq]
        unfold pymod
        simp [Int.zero_fmod]
      refine ⟨hvmin, le_of_lt hw, ?_⟩
      intro b hb hwb
      by_cases hbmin : e.wmin ≤ b
      · exact hbmin
      · push_neg at hbmin
        exfalso
        unfold ExtWidthInfo.isValid at hb
        rw [if_neg (by omega)] at hb
        simp only [Bool.and_eq_true, decide_eq_true_eq, beq_iff_eq] at hb
        have hblt : bisectLeft e.discreteWidths b < e.discreteWidths.length :=
          lt_of_le_of_ne (bisectLeft_le_length _ _) hb.1
        have hbmem : b ∈ e.discreteWidths := by
          rw [← hb.2]
          exact getD_mem_of_lt _ _ hblt
        have hall := List.countP_eq_length.mp hidx
        have := hall b hbmem
        simp only [decide_eq_true_eq] at this
        omega
    · rw [if_neg (by simp [hidx])] at h
      simp only [Except.ok.injEq] at h
      subst h
      have hlt : bisectLeft e.discreteWidths w < e.discreteWidths.length :=
        lt_of_le_of_ne (bisectLeft_le_length _ _) hidx
      have hamem : e.discreteWidths.getD (bisectLeft e.discreteWidths w) 0 ∈ e.discreteWidths :=
        getD_mem_of_lt _ _ hlt
      have hawmin := hd _ hamem
      have haval : e.isValid (e.discreteWidths.getD (bisectLeft e.discreteWidths w) 0) = true := by
        unfold ExtWidthInfo.isValid
        rw [if_neg (by omega)]
        have hm := bisectLeft_mem_of_sorted e.discreteWidths hs _ hamem
        simp only [Bool.and_eq_true, decide_eq_true_eq, beq_iff_eq]
        exact ⟨ne_of_lt hm.1, hm.2⟩
      refine ⟨haval, bisectLeft_ge_of_sorted _ hs _ hlt, ?_⟩
      intro b hb hwb
      by_cases hbmin : e.wmin ≤ b
      · omega
      · push_neg at hbmin
        unfold ExtWidthInfo.isValid at hb
        rw [if_neg (by omega)] at hb
        simp only [Bool.and_eq_true, decide_eq_true_eq, beq_iff_eq] at hb
        have hblt : bisectLeft e.discreteWidths b < e.discreteWidths.length :=
          lt_of_le_of_ne (bisectLeft_le_length _ _) hb.1
        have hbmem : b ∈ e.discreteWidths := by
          rw [← hb.2]
          exact getD_mem_of_lt _ _ hblt
        exact (bisectLeft_min_of_sorted e.discreteWidths hs w b hbmem hwb).2


/-! ### C5 support: shape lemmas for the row-placement loop -/

/-- ceil_to_pitch always outputs a multiple of the pitch. -/
theorem ceilToPitch_dvd (y pitch : Int) : pitch ∣ ceilToPitch y pitch :=
  dvd_mul_left pitch _

/-- Floor division by a nonzero exact divisor inverts multiplication. -/
theorem pitch_mul_fdiv (pitch x : Int) (hp : pitch ≠ 0) (hd : pitch ∣ x) :
    pitch * pydiv x pitch = x := by
  obtain ⟨c, rfl⟩ := hd
  rw [pydiv, Int.mul_fdiv_cancel_left c hp]

/-- Any successful output of the line-end fixup loop that starts at a
pitch-quantised legal extension keeps that shape: it equals
ytop_prev + pitch * (ext_h - prev_ext_h) for some extension height ext_h
returned by get_next_width. -/
theorem dyLoop_shape (pitch : Int) (ewi : ExtWidthInfo) (dyF : Int → Int → Int)
    (ytopPrev prevExtH ytopConnPrev : Int) :
    ∀ (fuel : Nat) (ycur dy out : Int),
    (∃ d eH, ewi.getNextWidth d false = .ok eH ∧
      ycur = ytopPrev + pitch * (eH - prevExtH)) →
    dyLoop pitch ewi dyF ytopPrev prevExtH ytopConnPrev fuel ycur dy = .ok out →
    ∃ d eH, ewi.getNextWidth d false = .ok eH ∧
      out = ytopPrev + pitch * (eH - prevExtH) := by
  intro fuel
  induction fuel with
  | zero =>
    intro ycur dy out hpre h
    unfold dyLoop at h
    split at h
    · exact absurd h (by simp)
    · simp only [Except.ok.injEq] at h
      subst h
      exact hpre
  | succ n ih =>
    intro ycur dy out hpre h
    unfold dyLoop at h
    split at h
    · dsimp only at h
      split at h
      · exact absurd h (by simp)
      · rename_i extH hg
        exact ih _ _ _ ⟨_, extH, hg, rfl⟩ h
    · simp only [Except.ok.injEq] at h
      subst h
      exact hpre

/-- The line-end fixup loop keeps the current position a multiple of the
pitch, given that the previous row top is one. -/
theorem dyLoop_dvd (pitch : Int) (ewi : ExtWidthInfo) (dyF : Int → Int → Int)
    (ytopPrev prevExtH ytopConnPrev : Int) (hyp : pitch ∣ ytopPrev) :
    ∀ (fuel : Nat) (ycur dy out : Int), pitch ∣ ycur →
    dyLoop pitch ewi dyF ytopPrev prevExtH ytopConnPrev fuel ycur dy = .ok out →
    pitch ∣ out := by
  intro fuel
  induction fuel with
  | zero =>
    intro ycur dy out hcur h
    unfold dyLoop at h
    split at h
    · exact absurd h (by simp)
    · simp only [Except.ok.injEq] at h
      subst h
      exact hcur
  | succ n ih =>
    intro ycur dy out hcur h
    unfold dyLoop at h
    split at h
    · dsimp only at h
      split at h
      · exact absurd h (by simp)
      · exact ih _ _ _ (dvd_add hyp (dvd_mul_right pitch _)) h
    · simp only [Except.ok.injEq] at h
      subst h
      exact hcur

/-- _place_mirror only shifts the current position by a whole number of
pitches. -/
theorem placeMirror_shape (tech : TechOracle) (extInfo : RowExtInfo) (ycur : Int)
    (ignoreVm : Bool) (res : Int × Int)
    (h : placeMirror tech extInfo ycur ignoreVm = .ok res) :
    ∃ k, res.1 = ycur + k * tech.blkHPitch := by
  unfold placeMirror at h
  dsimp only at h
  split at h
  · exact absurd h (by simp)
  · simp only [Except.ok.injEq] at h
    subst h
    exact ⟨_, rfl⟩

/-- A non-top row of _place_rows starts at the previous row's top; its
reported top is the pitch-quantised row extent; its block top is one row
height above its block bottom; the loop state carries the row top and the
realised top extension height obtained by floor division. -/
theorem placeRowStep_frame (grid : PRGrid) (tech : TechOracle)
    (totMin totPitch : Int) (botMirror topMirror : Bool) (mfuel numRows : Nat)
    (specs : RowPlaceSpecsM) (wo : RowWireOracle) (idx : Nat)
    (ytopPrev prevExtH ytopConnPrev : Int) (pinfo : Option RowExtInfo)
    (rp : RowPlaceInfoC) (s1 s2 s3 : Int)
    (hntop : (idx == numRows - 1) = false)
    (h : placeRowStep grid tech totMin totPitch botMirror topMirror mfuel numRows
      specs wo idx ytopPrev prevExtH ytopConnPrev pinfo = .ok (rp, s1, s2, s3)) :
    rp.yb = ytopPrev ∧ s1 = rp.yt ∧ rp.ytBlk = rp.ybBlk + specs.rowInfo.height ∧
    rp.yt = ytopPrev +
      ceilToPitch (max rp.ytBlk (wo.topUpper rp.ybBlk) - ytopPrev) tech.blkHPitch ∧
    s2 = pydiv (rp.yt - rp.ytBlk) tech.blkHPitch := by
  unfold placeRowStep at h
  dsimp only at h
  split at h
  · exact absurd h (by simp)
  · rename_i fixed hfix
    split at h
    · exact absurd h (by simp)
    · rename_i ycur hycur
      rw [hntop] at h
      simp only [Bool.false_eq_true, if_false] at h
      simp only [Except.ok.injEq, Prod.mk.injEq] at h
      obtain ⟨h1, h2, h3, h4⟩ := h
      subst h1
      subst h2
      subst h3
      subst h4
      exact ⟨rfl, rfl, rfl, rfl, rfl⟩

/-- The block bottom of every row produced by _place_rows is a multiple of
the block height pitch, given that the previous row top is one. -/
theorem placeRowStep_ybBlk_dvd (grid : PRGrid) (tech : TechOracle)
    (totMin totPitch : Int) (botMirror topMirror : Bool) (mfuel numRows : Nat)
    (specs : RowPlaceSpecsM) (wo : RowWireOracle) (idx : Nat)
    (ytopPrev prevExtH ytopConnPrev : Int) (pinfo : Option RowExtInfo)
    (rp : RowPlaceInfoC) (s1 s2 s3 : Int)
    (hyp : tech.blkHPitch ∣ ytopPrev)
    (h : placeRowStep grid tech totMin totPitch botMirror topMirror mfuel numRows
      specs wo idx ytopPrev prevExtH ytopConnPrev pinfo = .ok (rp, s1, s2, s3)) :
    tech.blkHPitch ∣ rp.ybBlk := by
  unfold placeRowStep at h
  dsimp only at h
  split at h
  · exact absurd h (by simp)
  · rename_i fixed hfix
    have hfx : tech.blkHPitch ∣ fixed.1 := by
      split at hfix
      · split at hfix
        · split at hfix
          · exact absurd hfix (by simp)
          · rename_i res hpm
            simp only [Except.ok.injEq] at hfix
            obtain ⟨k, hk⟩ := placeMirror_shape _ _ _ _ _ hpm
            rw [← hfix]
            dsimp only
            rw [hk]
            exact dvd_add (ceilToPitch_dvd _ _) (dvd_mul_left _ _)
        · simp only [Except.ok.injEq] at hfix
          rw [← hfix]
          exact ceilToPitch_dvd _ _
      · split at hfix
        · exact absurd hfix (by simp)
        · rename_i pei
          split at hfix
          · exact absurd hfix (by simp)
          · rename_i extH hg
            simp only [Except.ok.injEq] at hfix
            rw [← hfix]
            dsimp only
            exact dvd_add hyp (dvd_mul_right _ _)
    split at h
    · exact absurd h (by simp)
    · rename_i ycur hycur
      have hyc : tech.blkHPitch ∣ ycur := by
        split at hycur
        · exact dyLoop_dvd _ _ _ _ _ _ hyp _ _ _ _ hfx hycur
        · simp only [Except.ok.injEq] at hycur
          rw [← hycur]
          exact hfx
      split at h
      · exact absurd h (by simp)
      · rename_i ytop hytop
        simp only [Except.ok.injEq, Prod.mk.injEq] at h
        obtain ⟨h1, -, -, -⟩ := h
        rw [← h1]
        exact hyc

/-- A row at positive index of _place_rows is seated by the
extension-height computation: its block bottom equals the previous row
top plus pitch times the difference between a get_next_width answer for
the adjoining extension-edge descriptors and the previous realised
extension height. -/
theorem placeRowStep_ext_shape (grid : PRGrid) (tech : TechOracle)
    (totMin totPitch : Int) (botMirror topMirror : Bool) (mfuel numRows : Nat)
    (specs : RowPlaceSpecsM) (wo : RowWireOracle) (idx : Nat)
    (ytopPrev prevExtH ytopConnPrev : Int) (pei : RowExtInfo)
    (rp : RowPlaceInfoC) (s1 s2 s3 : Int)
    (hidx : (idx == 0) = false)
    (h : placeRowStep grid tech totMin totPitch botMirror topMirror mfuel numRows
      specs wo idx ytopPrev prevExtH ytopConnPrev (some pei) = .ok (rp, s1, s2, s3)) :
    ∃ dem extH,
      (tech.getExtWidthInfo pei specs.botExtInfo specs.ignoreBotVmSpLe).getNextWidth
        dem false = .ok extH ∧
      rp.ybBlk = ytopPrev + tech.blkHPitch * (extH - prevExtH) := by
  unfold placeRowStep at h
  dsimp only at h
  rw [hidx] at h
  simp only [Bool.false_eq_true, if_false] at h
  split at h
  · exact absurd h (by simp)
  · rename_i fixed hfix
    split at hfix
    · exact absurd hfix (by simp)
    · rename_i extH hg
      simp only [Except.ok.injEq] at hfix
      subst hfix
      dsimp only at h
      split at h
      · exact absurd h (by simp)
      · rename_i ycur hycur
        have hshape : ∃ dem eH,
            (tech.getExtWidthInfo pei specs.botExtInfo
              specs.ignoreBotVmSpLe).getNextWidth dem false = .ok eH ∧
            ycur = ytopPrev + tech.blkHPitch * (eH - prevExtH) := by
          split at hycur
          · exact dyLoop_shape _ _ _ _ _ _ _ _ _ _ ⟨_, extH, hg, rfl⟩ hycur
          · simp only [Except.ok.injEq] at hycur
            exact ⟨_, extH, hg, hycur.symm⟩
        split at h
        · exact absurd h (by simp)
        · rename_i ytop hytop
          simp only [Except.ok.injEq, Prod.mk.injEq] at h
          obtain ⟨h1, -, -, -⟩ := h
          obtain ⟨dem, eH, hgn, hy⟩ := hshape
          refine ⟨dem, eH, hgn, ?_⟩
          rw [← h1]
          exact hy

/-- C5: when _place_rows places two stacked rows with flip=True on the
second row, the placement satisfies
RowPlaceInfo[1].yb_blk = RowPlaceInfo[0].yt_blk + blk_h_pitch * ext_h,
where ext_h is an extension height returned by get_next_width of the
ExtWidthInfo for the two rows' adjoining extension-edge descriptors (the
flipped second row contributes its top extension info at its bottom
edge), and ext_h is the smallest extension height reported legal by that
oracle among those at least the demanded height.  Hypotheses: the pitch
is positive and divides the first row height, and the oracle answer is
well-formed (sorted discrete widths below wmin, positive step). -/
theorem C5_stacked_rows_extension (grid : PRGrid) (tech : TechOracle)
    (totMin totPitch : Int) (botMirror topMirror : Bool) (mfuel : Nat)
    (ri0 ri1 : MOSRowInfo) (ib0 it0 dg0 ib1 it1 dg1 : Bool)
    (wo0 wo1 : RowWireOracle) (p0 p1 : RowPlaceInfoC)
    (hflip : ri1.flip = true)
    (hpos : 0 < tech.blkHPitch)
    (hdvd : tech.blkHPitch ∣ ri0.height)
    (hstep : 0 < (tech.getExtWidthInfo (mkRowPlaceSpecs ri0 ib0 it0 dg0).topExtInfo
      ri1.topExtInfo ib1).step)
    (hsort : (tech.getExtWidthInfo (mkRowPlaceSpecs ri0 ib0 it0 dg0).topExtInfo
      ri1.topExtInfo ib1).discreteWidths.Sorted (fun x y => x < y))
    (hdisc : ∀ d ∈ (tech.getExtWidthInfo (mkRowPlaceSpecs ri0 ib0 it0 dg0).topExtInfo
      ri1.topExtInfo ib1).discreteWidths,
      d < (tech.getExtWidthInfo (mkRowPlaceSpecs ri0 ib0 it0 dg0).topExtInfo
        ri1.topExtInfo ib1).wmin)
    (hok : placeRows grid tech totMin totPitch botMirror topMirror mfuel
      [(mkRowPlaceSpecs ri0 ib0 it0 dg0, wo0), (mkRowPlaceSpecs ri1 ib1 it1 dg1, wo1)]
      = .ok [p0, p1]) :
    (mkRowPlaceSpecs ri1 ib1 it1 dg1).botExtInfo = ri1.topExtInfo ∧
    p0.ytBlk = p0.ybBlk + ri0.height ∧
    ∃ dem extH,
      (tech.getExtWidthInfo (mkRowPlaceSpecs ri0 ib0 it0 dg0).topExtInfo
        ri1.topExtInfo ib1).getNextWidth dem false = .ok extH ∧
      p1.ybBlk = p0.ytBlk + tech.blkHPitch * extH ∧
      (tech.getExtWidthInfo (mkRowPlaceSpecs ri0 ib0 it0 dg0).topExtInfo
        ri1.topExtInfo ib1).isValid extH = true ∧
      dem ≤ extH ∧
      ∀ b, (tech.getExtWidthInfo (mkRowPlaceSpecs ri0 ib0 it0 dg0).topExtInfo
        ri1.topExtInfo ib1).isValid b = true → dem ≤ b → extH ≤ b := by
  have hbe : (mkRowPlaceSpecs ri1 ib1 it1 dg1).botExtInfo = ri1.topExtInfo := by
    simp [mkRowPlaceSpecs, hflip]
  refine ⟨hbe, ?_⟩
  unfold placeRows at hok
  simp only [placeRowsGo] at hok
  split at hok
  · exact absurd hok (by simp)
  · rename_i st0 h0
    obtain ⟨rp0, a0, b0, c0⟩ := st0
    split at hok
    · exact absurd hok (by simp)
    · rename_i st1 h1
      obtain ⟨rp1, a1, b1, c1⟩ := st1
      dsimp only at h1
      simp only [List.nil_append, List.cons_append, Except.ok.injEq,
        List.cons.injEq, and_true] at hok
      obtain ⟨hp0, hp1⟩ := hok
      have hfr0 := placeRowStep_frame _ _ _ _ _ _ _ _ _ _ _ _ _ _ _ _ _ _ _
        (by rfl) h0
      obtain ⟨hyb0, ha0, hytb0, hyt0, hb0⟩ := hfr0
      have hdv0 : tech.blkHPitch ∣ rp0.ybBlk :=
        placeRowStep_ybBlk_dvd _ _ _ _ _ _ _ _ _ _ _ _ _ _ _ _ _ _ _
          (dvd_zero _) h0
      have hdvytb0 : tech.blkHPitch ∣ rp0.ytBlk := by
        rw [hytb0]
        exact dvd_add hdv0 hdvd
      have hdvyt0 : tech.blkHPitch ∣ rp0.yt := by
        rw [hyt0, zero_add]
        exact ceilToPitch_dvd _ _
      have hmul : tech.blkHPitch * b0 = rp0.yt - rp0.ytBlk := by
        rw [hb0]
        exact pitch_mul_fdiv _ _ (ne_of_gt hpos) (dvd_sub hdvyt0 hdvytb0)
      have hes := placeRowStep_ext_shape _ _ _ _ _ _ _ _ _ _ _ _ _ _ _ _ _ _ _
        (by rfl) h1
      rw [hbe] at hes
      obtain ⟨dem, extH, hgn, hshape⟩ := hes
      rw [ha0] at hshape
      have hmin := getNextWidth_min _ hstep hsort hdisc _ _ hgn
      subst hp0
      subst hp1
      refine ⟨hytb0, dem, extH, hgn, ?_, hmin.1, hmin.2.1, hmin.2.2⟩
      have hms : tech.blkHPitch * (extH - b0) =
          tech.blkHPitch * extH - tech.blkHPitch * b0 := by ring
      rw [hms, hmul] at hshape
      omega

/-- Concrete C5 run: rows of height 4 (unflipped) and 6 (flipped) on
pitch 2 with trivial oracles; the flipped second row lands with its block
bottom exactly on the first row's block top (extension height 0). -/
theorem C5_stacked_rows_extension_witness :
    placeRows prGridTrivial techTrivial 0 2 false false 0
      [(mkRowPlaceSpecs riC5a false false false, woTrivial),
       (mkRowPlaceSpecs riC5b false false false, woTrivial)] =
      .ok [⟨0, 4, 0, 4, (0, 0)⟩, ⟨4, 10, 4, 10, (4, 4)⟩] ∧
    riC5b.flip = true ∧
    ((mkRowPlaceSpecs riC5b false false false).botExtInfo = riC5b.topExtInfo ∧
      (4 : Int) = 0 + riC5a.height ∧
      ∃ dem extH,
        (techTrivial.getExtWidthInfo
          (mkRowPlaceSpecs riC5a false false false).topExtInfo riC5b.topExtInfo
          false).getNextWidth dem false = .ok extH ∧
        (4 : Int) = 4 + techTrivial.blkHPitch * extH ∧
        (techTrivial.getExtWidthInfo
          (mkRowPlaceSpecs riC5a false false false).topExtInfo riC5b.topExtInfo
          false).isValid extH = true ∧
        dem ≤ extH ∧
        ∀ b, (techTrivial.getExtWidthInfo
          (mkRowPlaceSpecs riC5a false false false).topExtInfo riC5b.topExtInfo
          false).isValid b = true → dem ≤ b → extH ≤ b) :=
  ⟨rfl, rfl,
    C5_stacked_rows_extension prGridTrivial techTrivial 0 2 false false 0
      riC5a riC5b false false false false false false woTrivial woTrivial
      ⟨0, 4, 0, 4, (0, 0)⟩ ⟨4, 10, 4, 10, (4, 4)⟩ rfl (by decide) ⟨2, rfl⟩
      (by decide) List.sorted_nil (by simp [techTrivial]) rfl⟩

/-! ### C1 support: the topological fold of place_compact -/

/-- find? returns the node with the queried id. -/
theorem find?_nid (g : WGraph) (k : Nat) (n : WNode) (h : g.find? k = some n) :
    n.nid = k := by
  unfold WGraph.find? at h
  have := List.find?_some h
  simpa using this

/-- A node with an outgoing edge has positive out-degree. -/
theorem outDeg_pos (g : WGraph) (u v : Nat) (h : (u, v) ∈ g.edges) :
    g.outDeg u ≠ 0 := by
  unfold WGraph.outDeg
  have hmem : (u, v) ∈ g.edges.filter (fun e => e.1 == u) :=
    List.mem_filter.mpr ⟨h, by simp⟩
  have hpos : 0 < (g.edges.filter (fun e => e.1 == u)).length :=
    List.length_pos.mpr (List.ne_nil_of_mem hmem)
  omega

/-- A node with an incoming edge has positive in-degree. -/
theorem inDeg_pos (g : WGraph) (u v : Nat) (h : (u, v) ∈ g.edges) :
    g.inDeg v ≠ 0 := by
  unfold WGraph.inDeg
  have hmem : (u, v) ∈ g.edges.filter (fun e => e.2 == v) :=
    List.mem_filter.mpr ⟨h, by simp⟩
  have hpos : 0 < (g.edges.filter (fun e => e.2 == v)).length :=
    List.length_pos.mpr (List.ne_nil_of_mem hmem)
  omega

/-- The tail of an edge is among the predecessors of its head. -/
theorem mem_preds (g : WGraph) (u v : Nat) (h : (u, v) ∈ g.edges) :
    u ∈ g.preds v := by
  unfold WGraph.preds
  exact List.mem_map.mpr ⟨(u, v), List.mem_filter.mpr ⟨h, by simp⟩, rfl⟩

/-- Nodes not in the processed list keep their assignment. -/
theorem pcFold_nokey (g : WGraph) (tm : TrOracle) (lower : Int) (botMirror : Bool)
    (shift : Int) (pcons : Option (WType → Int → Int → Int))
    (prevSinks : List (Int × WType)) (ytopConn : Option Int) :
    ∀ (l : List Nat) (m : Nat → Int) (k : Nat), k ∉ l →
    l.foldl (pcStep g tm lower botMirror shift pcons prevSinks ytopConn) m k = m k := by
  intro l
  induction l with
  | nil => intro m k _; rfl
  | cons j r ih =>
    intro m k hk
    simp only [List.mem_cons, not_or] at hk
    simp only [List.foldl_cons]
    rw [ih _ _ hk.2]
    unfold pcStep
    cases hf : g.find? j with
    | none => rfl
    | some n =>
      unfold updFun
      have hne : (k == j) = false := by
        simp only [beq_eq_false_iff_ne, ne_eq]
        exact hk.1
      simp only [hne, Bool.false_eq_true, if_false]

/-- The assignment of a node in the fold of place_compact is the node
index computed over the state accumulated strictly before it. -/
theorem pcFold_assign (g : WGraph) (tm : TrOracle) (lower : Int) (botMirror : Bool)
    (shift : Int) (pcons : Option (WType → Int → Int → Int))
    (prevSinks : List (Int × WType)) (ytopConn : Option Int)
    (l1 l2 : List Nat) (k : Nat) (n : WNode) (hk2 : k ∉ l2)
    (hfind : g.find? k = some n) (m0 : Nat → Int) :
    (l1 ++ k :: l2).foldl (pcStep g tm lower botMirror shift pcons prevSinks ytopConn)
      m0 k =
    pcNodeIdx g tm lower botMirror shift pcons prevSinks ytopConn
      (l1.foldl (pcStep g tm lower botMirror shift pcons prevSinks ytopConn) m0) n := by
  rw [List.foldl_append, List.foldl_cons]
  rw [pcFold_nokey g tm lower botMirror shift pcons prevSinks ytopConn l2 _ k hk2]
  unfold pcStep
  rw [hfind]
  unfold updFun
  simp only [beq_self_eq_true, if_true]

/-- A fold of an accumulator-increasing step never decreases. -/
theorem foldl_ge_start (s : Int → Nat → Int) (hs : ∀ a x, a ≤ s a x) :
    ∀ (l : List Nat) (c : Int), c ≤ l.foldl s c := by
  intro l
  induction l with
  | nil => intro c; exact le_rfl
  | cons x r ih => intro c; exact le_trans (hs c x) (ih (s c x))

/-- A fold of an accumulator-increasing step dominates the contribution
of any member. -/
theorem foldl_ge_mem (s : Int → Nat → Int) (hs : ∀ a x, a ≤ s a x)
    (b : Nat) (v : Int) (hb : ∀ a, v ≤ s a b) :
    ∀ (l : List Nat) (c : Int), b ∈ l → v ≤ l.foldl s c := by
  intro l
  induction l with
  | nil => intro c h; simp at h
  | cons x r ih =>
    intro c hmem
    rcases List.mem_cons.mp hmem with h1 | h1
    · subst h1
      exact le_trans (hb c) (foldl_ge_start s hs r (s c b))
    · exact ih (s c x) h1

/-- One step of the sink scan never lowers the running upper bound. -/
theorem sinkUpperStep_ge (g : WGraph) (tm : TrOracle) (topMirror : Bool)
    (m : Nat → Int) (cur : WNode) (tail : List Nat) (acc : Int × Bool) :
    acc.1 ≤ (sinkUpperStep g tm topMirror m cur tail acc).1 := by
  unfold sinkUpperStep
  dsimp only
  split
  · split
    · rename_i hge
      exact hge
    · exact le_rfl
  · split
    · split
      · rename_i hgt
        exact le_of_lt hgt
      · exact le_rfl
    · split
      · rename_i hgt
        exact le_of_lt hgt
      · exact le_rfl

/-- The sink scan never lowers the running upper bound. -/
theorem upperRec_ge_start (g : WGraph) (tm : TrOracle) (topMirror : Bool)
    (m : Nat → Int) :
    ∀ (l : List Nat) (acc : Int × Bool), acc.1 ≤ (upperRec g tm topMirror m l acc).1 := by
  intro l
  induction l with
  | nil => intro acc; exact le_rfl
  | cons s rest ih =>
    intro acc
    unfold upperRec
    split
    · exact ih acc
    · rename_i n hf
      exact le_trans (sinkUpperStep_ge g tm topMirror m n rest acc) (ih _)

/-- The sink scan reaches at least the coordinate of every shared sink it
processes. -/
theorem upperRec_shared (g : WGraph) (tm : TrOracle) (topMirror : Bool)
    (m : Nat → Int) :
    ∀ (l : List Nat) (acc : Int × Bool) (w : Nat) (n : WNode), w ∈ l →
    g.find? w = some n → n.shared = true →
    tm.grid.trackToCoord (m w) ≤ (upperRec g tm topMirror m l acc).1 := by
  intro l
  induction l with
  | nil => intro acc w n hw; simp at hw
  | cons s rest ih =>
    intro acc w n hw hf hsh
    rcases List.mem_cons.mp hw with h1 | h1
    · subst h1
      unfold upperRec
      rw [hf]
      refine le_trans ?_ (upperRec_ge_start g tm topMirror m rest _)
      unfold sinkUpperStep
      rw [hsh]
      rw [if_pos rfl]
      dsimp only
      rw [find?_nid g w n hf]
      split
      · exact le_rfl
      · rename_i hlt
        push_neg at hlt
        exact le_of_lt hlt
    · unfold upperRec
      split
      · exact ih acc w n h1 hf hsh
      · exact ih _ w n h1 hf hsh

/-- contains on Nat lists is membership. -/
theorem contains_eq_decide_mem (l : List Nat) (k : Nat) :
    l.contains k = decide (k ∈ l) := by
  rw [show l.contains k = l.elem k from rfl, List.elem_eq_mem]

/-- C1: after place_compact succeeds with a duplicate-free topological
processing order, the returned lower coordinate is the one passed in;
every edge (u, v) is legally separated (the final index of v is at least
the track the track manager reports above the final index of u for the
wire-type pair, the half-space flag cleared exactly when u is an
even-space partner of v); every shared source wire (no incoming edge,
at least one outgoing edge) sits on the track of the lower coordinate;
and every shared sink wire (no outgoing edge) sits on the track of the
returned upper coordinate.  The grid-oracle hypotheses state that
coord_to_track is monotone and inverts track_to_coord and that the
find_next_gt-derived track of step 3 does not go below its argument. -/
theorem C1_place_compact_legal (g : WGraph) (order : List Nat) (tm : TrOracle)
    (lower : Int) (botMirror topMirror : Bool) (shift : Int)
    (pcons : Option (WType → Int → Int → Int)) (prevSinks : List (Int × WType))
    (ytopConn : Option Int) (mF : Nat → Int) (lo up : Int)
    (hnodup : order.Nodup)
    (htopo : ∀ u v : Nat, (u, v) ∈ g.edges →
      ∃ l1 l2 l3, order = l1 ++ u :: (l2 ++ v :: l3))
    (hmono : ∀ a b : Int, a ≤ b → tm.grid.coordToTrack a ≤ tm.grid.coordToTrack b)
    (hinv : ∀ t : Int, tm.grid.coordToTrack (tm.grid.trackToCoord t) = t)
    (hge1 : ∀ c : Int, c ≤ tm.grid.trackToCoord (tm.grid.findNextGEh1 c))
    (hok : placeCompact g order tm lower botMirror topMirror shift pcons prevSinks
      ytopConn = .ok (mF, lo, up)) :
    lo = lower ∧
    (∀ u v : Nat, (u, v) ∈ g.edges → ∀ nu nv : WNode,
      g.find? u = some nu → g.find? v = some nv →
      tm.getNextTrack (mF u) nu.wtype nv.wtype (!(nv.evenSpaces.contains u)) true ≤
        mF v) ∧
    (∀ k : Nat, ∀ n : WNode, g.find? k = some n → n.shared = true →
      k ∈ order → g.inDeg k = 0 → g.outDeg k ≠ 0 →
      mF k = tm.grid.coordToTrack lower) ∧
    (∀ k : Nat, ∀ n : WNode, g.find? k = some n → n.shared = true →
      k ∈ order → g.outDeg k = 0 →
      mF k = tm.grid.coordToTrack up) := by
  unfold placeCompact at hok
  dsimp only at hok
  split at hok
  · exact absurd hok (by simp)
  · simp only [Except.ok.injEq, Prod.mk.injEq] at hok
    obtain ⟨hmF, hlo, hup⟩ := hok
    subst hmF
    subst hlo
    subst hup
    refine ⟨rfl, ?_, ?_, ?_⟩
    · intro u v he nu nv hfu hfv
      obtain ⟨l1, l2, l3, hdec⟩ := htopo u v he
      have hdec2 : order = (l1 ++ u :: l2) ++ v :: l3 := by
        rw [hdec]
        simp
      have hnd := hnodup
      rw [hdec] at hnd
      have hnd1 : (u :: (l2 ++ v :: l3)).Nodup := hnd.of_append_right
      have hunot : u ∉ l2 ++ v :: l3 := (List.nodup_cons.mp hnd1).1
      have hvnot : v ∉ l3 := by
        have hnd2 : (v :: l3).Nodup :=
          ((List.nodup_cons.mp hnd1).2).of_append_right
        exact (List.nodup_cons.mp hnd2).1
      have hcu : (order.filter (fun j => g.outDeg j == 0)).contains u = false := by
        rw [contains_eq_decide_mem]
        simp only [decide_eq_false_iff_not, List.mem_filter]
        intro hc
        have := outDeg_pos g u v he
        simp only [beq_iff_eq] at hc
        exact this hc.2
      have hm1v : (order.foldl
          (pcStep g tm lower botMirror shift pcons prevSinks ytopConn)
          (fun _ => 0)) v =
          pcNodeIdx g tm lower botMirror shift pcons prevSinks ytopConn
            ((l1 ++ u :: l2).foldl
              (pcStep g tm lower botMirror shift pcons prevSinks ytopConn)
              (fun _ => 0)) nv := by
        rw [hdec2]
        exact pcFold_assign g tm lower botMirror shift pcons prevSinks ytopConn
          (l1 ++ u :: l2) l3 v nv hvnot hfv _
      have hm1u : (order.foldl
          (pcStep g tm lower botMirror shift pcons prevSinks ytopConn)
          (fun _ => 0)) u =
          ((l1 ++ u :: l2).foldl
            (pcStep g tm lower botMirror shift pcons prevSinks ytopConn)
            (fun _ => 0)) u := by
        rw [hdec2, List.foldl_append]
        refine pcFold_nokey g tm lower botMirror shift pcons prevSinks ytopConn
          (v :: l3) _ u ?_
        simp only [List.mem_cons, not_or]
        constructor
        · intro huv
          exact hunot (by rw [huv]; exact List.mem_append_right _ (List.mem_cons_self _ _))
        · intro hul3
          exact hunot (List.mem_append_right _ (List.mem_cons_of_mem _ hul3))
      have hnext : tm.getNextTrack
          (((l1 ++ u :: l2).foldl
            (pcStep g tm lower botMirror shift pcons prevSinks ytopConn)
            (fun _ => 0)) u) nu.wtype nv.wtype (!(nv.evenSpaces.contains u)) true ≤
          (order.foldl (pcStep g tm lower botMirror shift pcons prevSinks ytopConn)
            (fun _ => 0)) v := by
        rw [hm1v]
        unfold pcNodeIdx
        dsimp only
        have hne0 : (g.inDeg nv.nid == 0) = false := by
          rw [find?_nid g v nv hfv]
          simp only [beq_eq_false_iff_ne, ne_eq]
          exact inDeg_pos g u v he
        rw [hne0]
        simp only [Bool.false_eq_true, if_false]
        refine foldl_ge_mem _ ?_ u _ ?_ _ _ ?_
        · intro a x
          cases hfx : g.find? x with
          | none => exact le_rfl
          | some nx => exact le_max_left _ _
        · intro a
          rw [hfu]
          exact le_max_right _ _
        · rw [find?_nid g v nv hfv]
          exact mem_preds g u v he
      -- reduce the final assignment at u and at v
      dsimp only
      rw [hfu, hfv, hcu]
      simp only [Bool.and_false, Bool.false_eq_true, if_false]
      rw [hm1u]
      cases hcv : nv.shared &&
          ((order.filter (fun j => g.outDeg j == 0)).contains v) with
      | false =>
        simp only [Bool.false_eq_true, if_false]
        exact le_trans le_rfl hnext
      | true =>
        simp only [if_true]
        refine le_trans hnext ?_
        have hvin : v ∈ order.filter (fun j => g.outDeg j == 0) := by
          have := (Bool.and_eq_true _ _).mp hcv
          rw [contains_eq_decide_mem] at this
          exact of_decide_eq_true this.2
        have hshv : nv.shared = true := ((Bool.and_eq_true _ _).mp hcv).1
        have hub : tm.grid.trackToCoord
            ((order.foldl (pcStep g tm lower botMirror shift pcons prevSinks ytopConn)
              (fun _ => 0)) v) ≤
            (upperRec g tm topMirror
              (order.foldl (pcStep g tm lower botMirror shift pcons prevSinks ytopConn)
                (fun _ => 0))
              (order.filter (fun k => g.outDeg k == 0)) (lower, false)).1 :=
          upperRec_shared g tm topMirror _ _ _ v nv hvin hfv hshv
        have hupge : tm.grid.trackToCoord
            ((order.foldl (pcStep g tm lower botMirror shift pcons prevSinks ytopConn)
              (fun _ => 0)) v) ≤
            (if (upperRec g tm topMirror
                (order.foldl (pcStep g tm lower botMirror shift pcons prevSinks ytopConn)
                  (fun _ => 0))
                (order.filter (fun k => g.outDeg k == 0)) (lower, false)).2 = true then
              (upperRec g tm topMirror
                (order.foldl (pcStep g tm lower botMirror shift pcons prevSinks ytopConn)
                  (fun _ => 0))
                (order.filter (fun k => g.outDeg k == 0)) (lower, false)).1
            else
              tm.grid.trackToCoord (tm.grid.findNextGEh1
                (upperRec g tm topMirror
                  (order.foldl
                    (pcStep g tm lower botMirror shift pcons prevSinks ytopConn)
                    (fun _ => 0))
                  (order.filter (fun k => g.outDeg k == 0)) (lower, false)).1)) := by
          split
          · exact hub
          · exact le_trans hub (hge1 _)
        calc (order.foldl (pcStep g tm lower botMirror shift pcons prevSinks ytopConn)
              (fun _ => 0)) v =
            tm.grid.coordToTrack (tm.grid.trackToCoord
              ((order.foldl (pcStep g tm lower botMirror shift pcons prevSinks ytopConn)
                (fun _ => 0)) v)) := (hinv _).symm
          _ ≤ _ := hmono _ _ hupge
    · intro k n hfind hsh hkord hin hout
      have hcont : (order.filter (fun j => g.outDeg j == 0)).contains k = false := by
        rw [contains_eq_decide_mem]
        simp only [decide_eq_false_iff_not, List.mem_filter]
        intro hc
        simp only [beq_iff_eq] at hc
        exact hout hc.2
      dsimp only
      rw [hfind, hcont]
      simp only [Bool.and_false, Bool.false_eq_true, if_false]
      obtain ⟨l1, l2, hdec⟩ := List.append_of_mem hkord
      have hk2 : k ∉ l2 := by
        have hnd := hnodup
        rw [hdec] at hnd
        exact (List.nodup_cons.mp hnd.of_append_right).1
      rw [hdec]
      rw [pcFold_assign g tm lower botMirror shift pcons prevSinks ytopConn
        l1 l2 k n hk2 hfind _]
      unfold pcNodeIdx
      dsimp only
      have h0 : (g.inDeg n.nid == 0) = true := by
        rw [find?_nid g k n hfind, hin]
        rfl
      rw [h0, hsh]
      simp only [if_true]
    · intro k n hfind hsh hkord hout
      have hcont : (order.filter (fun j => g.outDeg j == 0)).contains k = true := by
        rw [contains_eq_decide_mem]
        simp only [decide_eq_true_eq, List.mem_filter]
        exact ⟨hkord, by simp [hout]⟩
      dsimp only
      rw [hfind]
      simp only [hsh, hcont, Bool.and_self, if_true]

/-- Concrete C1 run on the chain shared-source 0 -> 1 -> shared-sink 2
with a one-full-track separation manager on a unit grid: final indices
0, 2, 4 with lower coordinate 0 and computed upper coordinate 4. -/
theorem C1_place_compact_legal_witness :
    ∃ mF : Nat → Int,
      placeCompact gW [0, 1, 2] sepTr 0 false false 0 none [] none =
        .ok (mF, 0, 4) ∧ mF 0 = 0 ∧ mF 1 = 2 ∧ mF 2 = 4 ∧
      ((0 : Int) = 0 ∧
       (∀ u v : Nat, (u, v) ∈ gW.edges → ∀ nu nv : WNode,
         gW.find? u = some nu → gW.find? v = some nv →
         sepTr.getNextTrack (mF u) nu.wtype nv.wtype (!(nv.evenSpaces.contains u))
           true ≤ mF v) ∧
       (∀ k : Nat, ∀ n : WNode, gW.find? k = some n → n.shared = true →
         k ∈ [0, 1, 2] → gW.inDeg k = 0 → gW.outDeg k ≠ 0 →
         mF k = sepTr.grid.coordToTrack 0) ∧
       (∀ k : Nat, ∀ n : WNode, gW.find? k = some n → n.shared = true →
         k ∈ [0, 1, 2] → gW.outDeg k = 0 →
         mF k = sepTr.grid.coordToTrack 4)) := by
  refine ⟨_, rfl, rfl, rfl, rfl,
    C1_place_compact_legal gW [0, 1, 2] sepTr 0 false false 0 none [] none _ 0 4
      (by decide) ?_ (fun a b h => h) (fun t => rfl) (fun c => le_rfl) rfl⟩
  intro u v h
  simp only [gW, List.mem_cons, List.not_mem_nil, or_false, Prod.mk.injEq] at h
  rcases h with ⟨hu, hv⟩ | ⟨hu, hv⟩
  · subst hu
    subst hv
    exact ⟨[], [], [2], rfl⟩
  · subst hu
    subst hv
    exact ⟨[0], [], [], rfl⟩

/-- moveOK only reads the entry at its wire. -/
theorem moveOK_congr (g : WGraph) (tm : TrOracle) (lower upper : Int)
    (st1 st2 : WSt) (k : Nat) (h : st2 k = st1 k)
    (hok : moveOK g tm lower upper st1 k) : moveOK g tm lower upper st2 k := by
  intro n hf
  rw [h]
  exact hok n hf

/-- Master lemma for WireGraph._move going down (up=False): every entry is
either untouched, or was unfrozen and now satisfies the move quality
predicate (shared wires snapped and hardened, others at or above the
lower-fitting track). -/
theorem moveWire_spec (g : WGraph) (tm : TrOracle) (lower upper : Int)
    (pcons : Option (WType → Int → Int → Int)) :
    ∀ (fuel : Nat) (st : WSt) (wire : Nat) (harden : Bool) (k : Nat),
    moveWire g tm lower upper pcons fuel st wire harden false k = st k ∨
    ((st k).2 = false ∧
      moveOK g tm lower upper
        (moveWire g tm lower upper pcons fuel st wire harden false) k) := by
  intro fuel
  induction fuel with
  | zero => intro st wire harden k; exact Or.inl rfl
  | succ f ih =>
    intro st wire harden k
    unfold moveWire
    cases hf : g.find? wire with
    | none => exact Or.inl rfl
    | some n0 =>
      dsimp only
      by_cases hfz : (st wire).2 = true
      · rw [if_pos hfz]
        exact Or.inl rfl
      · rw [if_neg hfz]
        by_cases hsh : n0.shared = true
        · rw [if_pos hsh]
          by_cases hkw : k = wire
          · subst hkw
            refine Or.inr ⟨Bool.not_eq_true _ ▸ hfz, ?_⟩
            intro n hfn
            rw [hf] at hfn
            injection hfn with hn
            subst hn
            constructor
            · intro _
              unfold updSt
              simp only [beq_self_eq_true, if_true]
            · intro hc
              rw [hc] at hsh
              exact absurd hsh Bool.false_ne_true
          · refine Or.inl ?_
            unfold updSt
            have hne : (k == wire) = false := by
              simp only [beq_eq_false_iff_ne, ne_eq]
              exact hkw
            simp only [hne, Bool.false_eq_true, if_false]
        · rw [if_neg hsh]
          simp only [Bool.false_eq_true, if_false, Bool.not_false]
          have haux : ∀ (l : List Nat) (acc : WSt × Int),
              (∀ j, acc.1 j = st j ∨
                ((st j).2 = false ∧ moveOK g tm lower upper acc.1 j)) →
              (∀ j, (l.foldl (fun (acc : WSt × Int) nb =>
                  match g.find? nb with
                  | none => (moveWire g tm lower upper pcons f acc.1 nb false false,
                      acc.2)
                  | some nn =>
                    (moveWire g tm lower upper pcons f acc.1 nb false false,
                      max acc.2 (tm.getNextTrack
                        ((moveWire g tm lower upper pcons f acc.1 nb false false) nb).1
                        nn.wtype n0.wtype (!(n0.evenSpaces.contains nb)) true))) acc).1 j
                  = st j ∨
                ((st j).2 = false ∧ moveOK g tm lower upper
                  (l.foldl (fun (acc : WSt × Int) nb =>
                  match g.find? nb with
                  | none => (moveWire g tm lower upper pcons f acc.1 nb false false,
                      acc.2)
                  | some nn =>
                    (moveWire g tm lower upper pcons f acc.1 nb false false,
                      max acc.2 (tm.getNextTrack
                        ((moveWire g tm lower upper pcons f acc.1 nb false false) nb).1
                        nn.wtype n0.wtype (!(n0.evenSpaces.contains nb)) true))) acc).1 j))
              ∧ acc.2 ≤ (l.foldl (fun (acc : WSt × Int) nb =>
                  match g.find? nb with
                  | none => (moveWire g tm lower upper pcons f acc.1 nb false false,
                      acc.2)
                  | some nn =>
                    (moveWire g tm lower upper pcons f acc.1 nb false false,
                      max acc.2 (tm.getNextTrack
                        ((moveWire g tm lower upper pcons f acc.1 nb false false) nb).1
                        nn.wtype n0.wtype (!(n0.evenSpaces.contains nb)) true))) acc).2 := by
            intro l
            induction l with
            | nil => intro acc hacc; exact ⟨hacc, le_rfl⟩
            | cons x r ihl =>
              intro acc hacc
              simp only [List.foldl_cons]
              cases hfx : g.find? x with
              | none =>
                refine ihl _ ?_
                intro j
                rcases ih acc.1 x false j with h1 | h1
                · rcases hacc j with h2 | h2
                  · exact Or.inl (by dsimp only; rw [h1]; exact h2)
                  · exact Or.inr ⟨h2.1, moveOK_congr g tm lower upper _ _ j h1 h2.2⟩
                · rcases hacc j with h2 | h2
                  · exact Or.inr ⟨by rw [← h2]; exact h1.1, h1.2⟩
                  · exact Or.inr ⟨h2.1, h1.2⟩
              | some nn =>
                have hr := ihl (moveWire g tm lower upper pcons f acc.1 x false false,
                  max acc.2 (tm.getNextTrack
                    ((moveWire g tm lower upper pcons f acc.1 x false false) x).1
                    nn.wtype n0.wtype (!(n0.evenSpaces.contains x)) true)) ?_
                · exact ⟨hr.1, le_trans (le_max_left _ _) hr.2⟩
                · intro j
                  rcases ih acc.1 x false j with h1 | h1
                  · rcases hacc j with h2 | h2
                    · exact Or.inl (by dsimp only; rw [h1]; exact h2)
                    · exact Or.inr ⟨h2.1, moveOK_congr g tm lower upper _ _ j h1 h2.2⟩
                  · rcases hacc j with h2 | h2
                    · exact Or.inr ⟨by rw [← h2]; exact h1.1, h1.2⟩
                    · exact Or.inr ⟨h2.1, h1.2⟩
          have hstart : ∀ j, ((st, tm.grid.findNextGEh n0.width lower) :
              WSt × Int).1 j = st j ∨
              ((st j).2 = false ∧ moveOK g tm lower upper
                ((st, tm.grid.findNextGEh n0.width lower) : WSt × Int).1 j) :=
            fun j => Or.inl rfl
          by_cases hkw : k = wire
          · subst hkw
            refine Or.inr ⟨Bool.not_eq_true _ ▸ hfz, ?_⟩
            intro n hfn
            rw [hf] at hfn
            injection hfn with hn
            subst hn
            constructor
            · intro hc
              rw [hc] at hsh
              exact absurd rfl hsh
            · intro _
              unfold updSt
              simp only [beq_self_eq_true, if_true]
              exact (haux (g.preds k) _ hstart).2
          · have hne : (k == wire) = false := by
              simp only [beq_eq_false_iff_ne, ne_eq]
              exact hkw
            have hupd : updSt ((g.preds wire).foldl (fun (acc : WSt × Int) nb =>
                  match g.find? nb with
                  | none => (moveWire g tm lower upper pcons f acc.1 nb false false,
                      acc.2)
                  | some nn =>
                    (moveWire g tm lower upper pcons f acc.1 nb false false,
                      max acc.2 (tm.getNextTrack
                        ((moveWire g tm lower upper pcons f acc.1 nb false false) nb).1
                        nn.wtype n0.wtype (!(n0.evenSpaces.contains nb)) true)))
                  (st, tm.grid.findNextGEh n0.width lower)).1 wire
                (((g.preds wire).foldl (fun (acc : WSt × Int) nb =>
                  match g.find? nb with
                  | none => (moveWire g tm lower upper pcons f acc.1 nb false false,
                      acc.2)
                  | some nn =>
                    (moveWire g tm lower upper pcons f acc.1 nb false false,
                      max acc.2 (tm.getNextTrack
                        ((moveWire g tm lower upper pcons f acc.1 nb false false) nb).1
                        nn.wtype n0.wtype (!(n0.evenSpaces.contains nb)) true)))
                  (st, tm.grid.findNextGEh n0.width lower)).2, harden) k =
                ((g.preds wire).foldl (fun (acc : WSt × Int) nb =>
                  match g.find? nb with
                  | none => (moveWire g tm lower upper pcons f acc.1 nb false false,
                      acc.2)
                  | some nn =>
                    (moveWire g tm lower upper pcons f acc.1 nb false false,
                      max acc.2 (tm.getNextTrack
                        ((moveWire g tm lower upper pcons f acc.1 nb false false) nb).1
                        nn.wtype n0.wtype (!(n0.evenSpaces.contains nb)) true)))
                  (st, tm.grid.findNextGEh n0.width lower)).1 k := by
              unfold updSt
              simp only [hne, Bool.false_eq_true, if_false]
            rcases (haux (g.preds wire) _ hstart).1 k with h1 | h1
            · exact Or.inl (by rw [hupd]; exact h1)
            · exact Or.inr ⟨h1.1, moveOK_congr g tm lower upper _ _ k hupd h1.2⟩

/-- Frozen (hardened) entries are never changed by a downward move. -/
theorem moveWire_frozen (g : WGraph) (tm : TrOracle) (lower upper : Int)
    (pcons : Option (WType → Int → Int → Int)) (fuel : Nat) (st : WSt)
    (wire : Nat) (harden : Bool) (k : Nat) (hk : (st k).2 = true) :
    moveWire g tm lower upper pcons fuel st wire harden false k = st k := by
  rcases moveWire_spec g tm lower upper pcons fuel st wire harden k with h | h
  · exact h
  · rcases h with ⟨h1, -⟩
    rw [hk] at h1
    exact absurd h1 (by simp)

/-- A top-level (harden=True) downward move leaves its own wire hardened. -/
theorem moveWire_harden (g : WGraph) (tm : TrOracle) (lower upper : Int)
    (pcons : Option (WType → Int → Int → Int)) (f : Nat) (st : WSt) (wire : Nat)
    (n : WNode) (hf : g.find? wire = some n) :
    ((moveWire g tm lower upper pcons (f + 1) st wire true false) wire).2 = true := by
  unfold moveWire
  rw [hf]
  dsimp only
  by_cases hfz : (st wire).2 = true
  · rw [if_pos hfz]
    exact hfz
  · rw [if_neg hfz]
    by_cases hsh : n.shared = true
    · rw [if_pos hsh]
      unfold updSt
      simp only [beq_self_eq_true, if_true]
    · rw [if_neg hsh]
      simp only [Bool.false_eq_true, if_false, Bool.not_false]
      unfold updSt
      simp only [beq_self_eq_true, if_true]

/-- A LOWER_COMPACT alignment group is the left fold of hardened downward
moves over its wires. -/
theorem alignGroup_lower (g : WGraph) (tm : TrOracle) (lower upper : Int)
    (pcons : Option (WType → Int → Int → Int)) (fuel : Nat) (middleIdx : Int)
    (st : WSt) (sp : AlignSpec) (hsp : sp.align = Alignment.lowerCompact) :
    alignGroup g tm lower upper pcons fuel middleIdx st sp =
      sp.wires.foldl
        (fun s w => moveWire g tm lower upper pcons fuel s w true false) st := by
  unfold alignGroup
  rw [hsp]

/-- Over one LOWER_COMPACT group: hardened entries stay put and satisfy
the move-quality predicate, and every listed wire ends hardened. -/
theorem groupFold_spec (g : WGraph) (tm : TrOracle) (lower upper : Int)
    (pcons : Option (WType → Int → Int → Int)) (f : Nat) :
    ∀ (ws : List Nat) (st : WSt),
    (∀ k n, g.find? k = some n → (st k).2 = true → moveOK g tm lower upper st k) →
    ((∀ k n, g.find? k = some n →
        ((ws.foldl (fun s w => moveWire g tm lower upper pcons (f + 1) s w true false)
          st) k).2 = true →
        moveOK g tm lower upper
          (ws.foldl (fun s w => moveWire g tm lower upper pcons (f + 1) s w true false)
            st) k) ∧
      (∀ k, (st k).2 = true →
        (ws.foldl (fun s w => moveWire g tm lower upper pcons (f + 1) s w true false)
          st) k = st k) ∧
      (∀ w ∈ ws, ∀ n, g.find? w = some n →
        ((ws.foldl (fun s w => moveWire g tm lower upper pcons (f + 1) s w true false)
          st) w).2 = true)) := by
  intro ws
  induction ws with
  | nil =>
    intro st hJ
    refine ⟨fun k n hf h2 => hJ k n hf h2, fun k _ => rfl, ?_⟩
    intro w hw
    simp at hw
  | cons x r ihw =>
    intro st hJ
    simp only [List.foldl_cons]
    have hJ1 : ∀ k n, g.find? k = some n →
        ((moveWire g tm lower upper pcons (f + 1) st x true false) k).2 = true →
        moveOK g tm lower upper
          (moveWire g tm lower upper pcons (f + 1) st x true false) k := by
      intro k n hfk h2
      rcases moveWire_spec g tm lower upper pcons (f + 1) st x true k with h | h
      · refine moveOK_congr g tm lower upper st _ k h (hJ k n hfk ?_)
        rw [← h]
        exact h2
      · exact h.2
    have hrest := ihw (moveWire g tm lower upper pcons (f + 1) st x true false) hJ1
    refine ⟨hrest.1, ?_, ?_⟩
    · intro k hk
      have hfr1 := moveWire_frozen g tm lower upper pcons (f + 1) st x true k hk
      have hk1 : ((moveWire g tm lower upper pcons (f + 1) st x true false) k).2 =
          true := by
        rw [hfr1]
        exact hk
      rw [hrest.2.1 k hk1, hfr1]
    · intro w hw n hfw
      rcases List.mem_cons.mp hw with h1 | h1
      · subst h1
        have hh := moveWire_harden g tm lower upper pcons f st w n hfw
        rw [hrest.2.1 w hh]
        exact hh
      · exact hrest.2.2 w h1 n hfw

/-- Over a list of LOWER_COMPACT groups: hardened entries stay put and
satisfy the move-quality predicate, and every wire listed in some group
ends hardened. -/
theorem alignFold_spec (g : WGraph) (tm : TrOracle) (lower upper : Int)
    (pcons : Option (WType → Int → Int → Int)) (f : Nat) (middleIdx : Int) :
    ∀ (aligns : List AlignSpec) (st : WSt),
    (∀ sp ∈ aligns, sp.align = Alignment.lowerCompact) →
    (∀ k n, g.find? k = some n → (st k).2 = true → moveOK g tm lower upper st k) →
    ((∀ k n, g.find? k = some n →
        ((aligns.foldl (alignGroup g tm lower upper pcons (f + 1) middleIdx) st)
          k).2 = true →
        moveOK g tm lower upper
          (aligns.foldl (alignGroup g tm lower upper pcons (f + 1) middleIdx) st) k) ∧
      (∀ k, (st k).2 = true →
        (aligns.foldl (alignGroup g tm lower upper pcons (f + 1) middleIdx) st) k =
          st k) ∧
      (∀ sp ∈ aligns, ∀ w ∈ sp.wires, ∀ n, g.find? w = some n →
        ((aligns.foldl (alignGroup g tm lower upper pcons (f + 1) middleIdx) st)
          w).2 = true)) := by
  intro aligns
  induction aligns with
  | nil =>
    intro st hall hJ
    refine ⟨fun k n hf h2 => hJ k n hf h2, fun k _ => rfl, ?_⟩
    intro sp hsp
    simp at hsp
  | cons a rest iha =>
    intro st hall hJ
    simp only [List.foldl_cons]
    rw [alignGroup_lower g tm lower upper pcons (f + 1) middleIdx st a
      (hall a (List.mem_cons_self a rest))]
    have hg := groupFold_spec g tm lower upper pcons f a.wires st hJ
    have hrest := iha
      (a.wires.foldl
        (fun s w => moveWire g tm lower upper pcons (f + 1) s w true false) st)
      (fun sp hsp => hall sp (List.mem_cons_of_mem a hsp)) hg.1
    refine ⟨hrest.1, ?_, ?_⟩
    · intro k hk
      rw [hrest.2.1 k (by rw [hg.2.1 k hk]; exact hk), hg.2.1 k hk]
    · intro sp hsp w hw n hfw
      rcases List.mem_cons.mp hsp with h1 | h1
      · subst h1
        have hh := hg.2.2 w hw n hfw
        rw [hrest.2.1 w hh]
        exact hh
      · exact hrest.2.2 sp h1 w hw n hfw

/-- C7 (amended): for align_wires runs whose alignment groups are all
LOWER_COMPACT, every wire listed in some group ends hardened; a listed
shared wire is snapped exactly to a boundary track (a sink to the track
at upper, any other to the track at lower); every other listed wire ends
at or above the first track that fits its width at the lower coordinate.
The original upper-bound guarantee for non-shared wires is refuted by the
counterexample theorem. -/
theorem C7_align_wires_lower_compact (g : WGraph) (aligns : List AlignSpec)
    (tm : TrOracle) (lower upper : Int)
    (pcons : Option (WType → Int → Int → Int)) (st0 : WSt)
    (hall : ∀ sp ∈ aligns, sp.align = Alignment.lowerCompact)
    (sp : AlignSpec) (hsp : sp ∈ aligns) (w : Nat) (hw : w ∈ sp.wires)
    (n : WNode) (hfind : g.find? w = some n) :
    ((alignWires g aligns tm lower upper pcons st0) w).2 = true ∧
    (n.shared = true →
      (alignWires g aligns tm lower upper pcons st0) w =
        ((if g.outDeg w == 0 then tm.grid.coordToTrack upper
          else tm.grid.coordToTrack lower), true)) ∧
    (n.shared = false →
      tm.grid.findNextGEh n.width lower ≤
        ((alignWires g aligns tm lower upper pcons st0) w).1) := by
  unfold alignWires
  have hbase : ∀ k n', g.find? k = some n' →
      (((fun k => ((st0 k).1, false)) : WSt) k).2 = true →
      moveOK g tm lower upper (fun k => ((st0 k).1, false)) k := by
    intro k n' _ h2
    exact absurd h2 (by simp)
  have hmain := alignFold_spec g tm lower upper pcons g.nodes.length
    (tm.grid.coordToTrackNearest (pydiv (lower + upper) 2)) aligns
    (fun k => ((st0 k).1, false)) hall hbase
  have hhard := hmain.2.2 sp hsp w hw n hfind
  have hOK := hmain.1 w n hfind hhard
  exact ⟨hhard, (hOK n hfind).1, (hOK n hfind).2⟩

/-- Concrete C7 run: the chain shared-source 0 -> 1 -> shared-sink 2 in a
single LOWER_COMPACT group between coordinates 0 and 10 on a unit grid:
the shared sink 2 is snapped to track 10 and hardened. -/
theorem C7_align_wires_lower_compact_witness :
    (∀ sp ∈ [(⟨[0, 1, 2], Alignment.lowerCompact⟩ : AlignSpec)],
      sp.align = Alignment.lowerCompact) ∧
    alignWires gW [⟨[0, 1, 2], Alignment.lowerCompact⟩] sepTr 0 10 none
      (fun _ => (0, false)) 2 = (10, true) ∧
    gW.find? 2 = some ⟨2, ['s'], [], 1, true, []⟩ ∧
    (((alignWires gW [⟨[0, 1, 2], Alignment.lowerCompact⟩] sepTr 0 10 none
        (fun _ => (0, false))) 2).2 = true ∧
      ((⟨2, ['s'], [], 1, true, []⟩ : WNode).shared = true →
        (alignWires gW [⟨[0, 1, 2], Alignment.lowerCompact⟩] sepTr 0 10 none
          (fun _ => (0, false))) 2 =
          ((if gW.outDeg 2 == 0 then sepTr.grid.coordToTrack 10
            else sepTr.grid.coordToTrack 0), true)) ∧
      ((⟨2, ['s'], [], 1, true, []⟩ : WNode).shared = false →
        sepTr.grid.findNextGEh (⟨2, ['s'], [], 1, true, []⟩ : WNode).width 0 ≤
          ((alignWires gW [⟨[0, 1, 2], Alignment.lowerCompact⟩] sepTr 0 10 none
            (fun _ => (0, false))) 2).1)) := by
  refine ⟨?_, rfl, rfl, ?_⟩
  · intro sp hsp
    rw [List.mem_singleton] at hsp
    subst hsp
    rfl
  · refine C7_align_wires_lower_compact gW [⟨[0, 1, 2], Alignment.lowerCompact⟩]
      sepTr 0 10 none (fun _ => (0, false)) ?_
      ⟨[0, 1, 2], Alignment.lowerCompact⟩ (List.mem_singleton.mpr rfl) 2 (by decide)
      ⟨2, ['s'], [], 1, true, []⟩ rfl
    intro sp hsp
    rw [List.mem_singleton] at hsp
    subst hsp
    rfl

end Xbase
